import Mathlib

/-! # mi-api-next: users and products route handlers

A shallow embedding of the three route modules

* `src/app/api/users/route.js`            (namespace `MiApi.Users`)
* `src/app/api/products/route.js`         (namespace `MiApi.Products`)
* `src/app/api/products/[id]/route.js`    (namespace `MiApi.ProductsById`)

Every handler reads and writes one module-level array.  A handler is embedded as a
function from the array before the request and the request to the response and the
array after the request.

Conventions of the embedding.

* A request body is the value `request.json()` resolves to: a `JSON` value.  A body that
  is not JSON makes `request.json()` throw, which the `catch` block of the user handlers
  and of product create answers with 400 without touching the array; it is not a value
  of `JSON`.
* Numbers are exact rationals.  The rounding and overflow of IEEE-754 doubles are not
  modelled: a number of the embedding stands for a number of the code only where the
  doubles are exact, which the integers of magnitude up to `2^53` are.  A statement about
  an integer that a request gives in decimal text (a JSON number, a path segment) and
  that no record holds is therefore made for the integers of that range.  The values `NaN`, `-Infinity` and `Infinity`, which the
  handlers can compute (`parseInt`, `parseFloat`, `Math.max` of no arguments), are
  modelled (`JSNum`).
* Strings are sequences of Unicode scalar values.  The method `toLowerCase` of the host
  follows the case tables of Unicode, which are not in the source.  The definition
  `toLowerCase` maps the letters `A`..`Z` and leaves every other character alone: it
  agrees with the method of the host on every string in which no character other than
  `A`..`Z` has a lowercase form of its own, and it is used to evaluate the handlers on
  such strings.  Product create is also embedded
  with the method as a parameter (`Products.POSTWith`), and the statements about letter
  case in general are made about that definition, for every such method.
  `localeCompare` depends on the collation tables of the host and is a parameter of
  product list.
* A response is its status code and its payload; the headers and the texts of the
  error messages are left out.
-/

namespace MiApi

/-! ## Numbers -/

/-- A number as the handlers compute it: a finite value, or one of `NaN`, `-Infinity`,
`Infinity`. -/
inductive JSNum where
  | nan
  | negInf
  | posInf
  | fin (q : ℚ)
deriving DecidableEq, Inhabited

namespace JSNum

/-- The test `isNaN(x)`. -/
def isNaN : JSNum → Bool
  | nan => true
  | _ => false

/-- Strict equality `x === y` of two numbers: `NaN` equals nothing. -/
def strictEq : JSNum → JSNum → Bool
  | nan, _ => false
  | _, nan => false
  | a, b => decide (a = b)

/-- The comparison `x < y`; false when either side is `NaN`. -/
def lt : JSNum → JSNum → Bool
  | nan, _ => false
  | _, nan => false
  | _, negInf => false
  | negInf, _ => true
  | posInf, _ => false
  | fin _, posInf => true
  | fin a, fin b => decide (a < b)

/-- The comparison `x <= y`; false when either side is `NaN`. -/
def le : JSNum → JSNum → Bool
  | nan, _ => false
  | _, nan => false
  | negInf, _ => true
  | _, posInf => true
  | posInf, _ => false
  | fin _, negInf => false
  | fin a, fin b => decide (a ≤ b)

/-- Unary minus. -/
def neg : JSNum → JSNum
  | nan => nan
  | negInf => posInf
  | posInf => negInf
  | fin a => fin (-a)

/-- The sum `x + y`. -/
def add : JSNum → JSNum → JSNum
  | nan, _ => nan
  | _, nan => nan
  | negInf, posInf => nan
  | posInf, negInf => nan
  | negInf, _ => negInf
  | _, negInf => negInf
  | posInf, _ => posInf
  | _, posInf => posInf
  | fin a, fin b => fin (a + b)

/-- The difference `x - y`. -/
def sub (x y : JSNum) : JSNum := add x (neg y)

end JSNum

/-- One step of `Math.max`: `NaN` wins, otherwise the larger argument. -/
def max2 (a b : JSNum) : JSNum :=
  if a.isNaN || b.isNaN then JSNum.nan else if a.lt b then b else a

/-- The call `Math.max(...xs)`: `-Infinity` when there is no argument. -/
def mathMax (xs : List JSNum) : JSNum := xs.foldl max2 JSNum.negInf

/-! ## Strings -/

/-- The characters that `trim`, `parseInt`, `parseFloat` and the class `\s` of a regular
expression treat as white space (WhiteSpace and LineTerminator of ECMAScript). -/
def isWhiteSpace (c : Char) : Bool :=
  let n := c.toNat
  n == 0x09 || n == 0x0A || n == 0x0B || n == 0x0C || n == 0x0D || n == 0x20 || n == 0xA0
    || n == 0x1680 || (decide (0x2000 ≤ n) && decide (n ≤ 0x200A)) || n == 0x2028
    || n == 0x2029 || n == 0x202F || n == 0x205F || n == 0x3000 || n == 0xFEFF

/-- The method `s.trim()`. -/
def trim (s : String) : String :=
  String.mk ((s.data.dropWhile isWhiteSpace).rdropWhile isWhiteSpace)

/-- The method `s.toLowerCase()`, on the letters `A`..`Z`: it agrees with the method of
the host on every string in which no other character has a lowercase form of its own. -/
def toLowerCase (s : String) : String :=
  String.mk (s.data.map Char.toLower)

/-- The method `s.includes(t)`: `t` occurs in `s` as a contiguous run. -/
def includes (s t : String) : Bool :=
  s.data.tails.any (fun u => t.data.isPrefixOf u)

/-- The class `[^\s@]` of the email pattern. -/
def notSpaceAt (c : Char) : Bool := !isWhiteSpace c && c != '@'

/-- A dot with at least one character on each side. -/
def dotInside : List Char → Bool
  | [] => false
  | _ :: r => r.dropLast.contains '.'

/-- The test `/^[^\s@]+@[^\s@]+\.[^\s@]+$/.test(s)` on a string. -/
def emailRegexTest (s : String) : Bool :=
  match s.data.dropWhile notSpaceAt with
  | '@' :: d => !(s.data.takeWhile notSpaceAt).isEmpty && d.all notSpaceAt && dotInside d
  | _ => false

/-- The value of a digit in the given radix, if the character is one. -/
def digitVal (radix : Nat) (c : Char) : Option Nat :=
  let n := c.toNat
  let v : Option Nat :=
    if 48 ≤ n ∧ n ≤ 57 then some (n - 48)
    else if 97 ≤ n ∧ n ≤ 122 then some (n - 87)
    else if 65 ≤ n ∧ n ≤ 90 then some (n - 55)
    else none
  v.filter (fun d => decide (d < radix))

/-- The number a run of digits denotes in the given radix. -/
def digitsVal (radix : Nat) (ds : List Char) : Nat :=
  ds.foldl (fun acc c => acc * radix + (digitVal radix c).getD 0) 0

/-- A leading sign is dropped. -/
def stripSign : List Char → List Char
  | '-' :: r => r
  | '+' :: r => r
  | cs => cs

/-- The radix `parseInt` reads in: 16 after `0x` or `0X`, else 10. -/
def radixOf : List Char → Nat
  | '0' :: 'x' :: _ => 16
  | '0' :: 'X' :: _ => 16
  | _ => 10

/-- A leading `0x` or `0X` is dropped. -/
def stripRadix : List Char → List Char
  | '0' :: 'x' :: r => r
  | '0' :: 'X' :: r => r
  | cs => cs

/-- The call `parseInt(s)` on a string: leading white space is skipped, then a sign, then
`0x` or `0X` selects radix 16, then the longest run of digits is read; `NaN` when that run
is empty. -/
def parseIntStr (s : String) : JSNum :=
  let cs := s.data.dropWhile isWhiteSpace
  let neg := cs.head? == some '-'
  let radix := radixOf (stripSign cs)
  let ds := (stripRadix (stripSign cs)).takeWhile (fun c => (digitVal radix c).isSome)
  if ds.isEmpty then JSNum.nan
  else JSNum.fin (if neg then -(digitsVal radix ds : ℚ) else (digitsVal radix ds : ℚ))

/-- The first digit of the decimal text of a natural number (`fuel` bounds the number of
digits). -/
def firstDigit : Nat → Nat → Nat
  | 0, n => n
  | fuel + 1, n => if n < 10 then n else firstDigit fuel (n / 10)

/-- A positive rational below one, multiplied by ten until it is at least one (`fuel`
bounds the number of steps). -/
def scaleUp : Nat → ℚ → ℚ
  | 0, a => a
  | fuel + 1, a => if 1 ≤ a then a else scaleUp fuel (a * 10)

/-- The first significant decimal digit of a positive rational. -/
def leadingDigit (a : ℚ) : ℤ :=
  if 1 ≤ a then (firstDigit ⌊a⌋.toNat ⌊a⌋.toNat : Nat) else ⌊scaleUp a.den a⌋

/-- The call `parseInt(x)` on a number.  The number is first written as a string: in
positional notation when `1e-6 <= |x| < 1e21`, of which `parseInt` reads the integer part,
and in exponent notation otherwise, of which `parseInt` reads the leading digit (here the
leading digit of the exact value). -/
def parseIntNum (q : ℚ) : ℤ :=
  if q = 0 then 0
  else
    let a := |q|
    let m := if 1 / 10 ^ 6 ≤ a ∧ a < 10 ^ 21 then ⌊a⌋ else leadingDigit a
    if q < 0 then -m else m

/-- The call `parseFloat(s)` on a string: leading white space is skipped, then the longest
prefix that is a decimal literal (sign, `Infinity` or digits with an optional fraction and
exponent) is read; `NaN` when there is none.  The value is that of the text, not rounded
to a double. -/
def parseFloat (s : String) : JSNum :=
  let ws := s.data.dropWhile isWhiteSpace
  let neg := ws.head? == some '-'
  let cs := stripSign ws
  if "Infinity".data.isPrefixOf cs then (if neg then JSNum.negInf else JSNum.posInf)
  else
    let ip := cs.takeWhile Char.isDigit
    let r1 := cs.dropWhile Char.isDigit
    let fp := match r1 with
      | '.' :: r => r.takeWhile Char.isDigit
      | _ => []
    let r2 := match r1 with
      | '.' :: r => r.dropWhile Char.isDigit
      | _ => r1
    if ip.isEmpty && fp.isEmpty then JSNum.nan
    else
      let er := match r2 with
        | 'e' :: r => r
        | 'E' :: r => r
        | _ => []
      let eneg := er.head? == some '-'
      let ed := match er with
        | '-' :: r => r.takeWhile Char.isDigit
        | '+' :: r => r.takeWhile Char.isDigit
        | _ => er.takeWhile Char.isDigit
      let m : ℚ := (digitsVal 10 (ip ++ fp) : ℚ) / 10 ^ fp.length
      let v : ℚ := if eneg then m / 10 ^ digitsVal 10 ed else m * 10 ^ digitsVal 10 ed
      JSNum.fin (if neg then -v else v)

/-! ## JSON values -/

/-- A primitive JSON value, as `request.json()` yields it.  A number is the value of
the double: a JSON text stands for the number it denotes where that number is a double,
as every integer of magnitude up to `2^53` is. -/
inductive Prim where
  | null
  | bool (b : Bool)
  | num (q : ℚ)
  | str (s : String)
deriving DecidableEq, Inhabited

/-- A JSON value: what `request.json()` resolves to.  An object is the list of its
properties; when a key occurs twice the first occurrence is the property. -/
inductive JSON where
  | prim (p : Prim)
  | arr (xs : List JSON)
  | obj (kvs : List (String × JSON))
deriving Inhabited

namespace JSON

/-- The JSON value `null`. -/
@[match_pattern] def null : JSON := prim Prim.null

/-- A JSON boolean. -/
@[match_pattern] def bool (b : Bool) : JSON := prim (Prim.bool b)

/-- A JSON number. -/
@[match_pattern] def num (q : ℚ) : JSON := prim (Prim.num q)

/-- A JSON string. -/
@[match_pattern] def str (s : String) : JSON := prim (Prim.str s)

/-- The own properties of a value that destructuring can read: those of an object.  The
names the handlers read (`id`, `name`, `email`, `age`, `price`) are not properties of a
number, boolean, string or array. -/
def props : JSON → List (String × JSON)
  | obj kvs => kvs
  | _ => []

/-- The property `v.k`, or `none` for `undefined`. -/
def prop (v : JSON) (k : String) : Option JSON :=
  (v.props.find? (fun kv => kv.1 == k)).map Prod.snd

/-- The names of the own properties of `v` other than `k`. -/
def restKeys (v : JSON) (k : String) : List String :=
  (v.props.map Prod.fst).filter (fun x => x != k)

/-- The conversion to boolean: `false`, `0`, `""` and `null` are falsy. -/
def truthy : JSON → Bool
  | prim Prim.null => false
  | prim (Prim.bool b) => b
  | prim (Prim.num q) => decide (q ≠ 0)
  | prim (Prim.str s) => s != ""
  | _ => true

/-- The call `parseInt(v)`: `v` is converted to a string first.  An array becomes its
elements joined by commas, of which `parseInt` reads no further than the first element;
`true`, `false`, `null`, the empty array and objects give `NaN`. -/
def parseInt : JSON → JSNum
  | prim (Prim.str s) => parseIntStr s
  | prim (Prim.num q) => JSNum.fin (parseIntNum q)
  | arr (x :: _) => parseInt x
  | _ => JSNum.nan

end JSON

/-- The conversion to boolean of a value that may be `undefined`. -/
def truthy? : Option JSON → Bool
  | some v => v.truthy
  | none => false

/-! ## Responses -/

/-- A response: the status code and, on success, the payload. -/
structure Response (α : Type) where
  status : Nat
  payload : Option α
deriving DecidableEq

/-- The response of a failed request. -/
def Response.fail {α : Type} (status : Nat) : Response α := ⟨status, none⟩

/-- The summary a delete returns: the removed record and the number of records left. -/
structure Deletion (α : Type) where
  deleted : α
  remaining : Nat
deriving DecidableEq

/-! ## Users: `src/app/api/users/route.js` -/

/-- A record of the `users` array.  The email is a primitive value and not a string
because an update can store a falsy `email` as it is. -/
structure User where
  id : JSNum
  name : String
  email : Prim
  age : ℚ
deriving DecidableEq, Inhabited

/-- The array `users` as the module initialises it. -/
def users : List User :=
  [ ⟨JSNum.fin 1, "Juan Pérez", Prim.str "juan@example.com", 25⟩,
    ⟨JSNum.fin 2, "María González", Prim.str "maria@example.com", 30⟩,
    ⟨JSNum.fin 3, "Carlos López", Prim.str "carlos@example.com", 22⟩ ]

namespace Users

/-- The constant `allowedFields` of `PUT`. -/
def allowedFields : List String := ["name", "email", "age"]

/-- The comparison `user.email === email` of a stored email with a submitted value: an
array or an object is equal to no stored email. -/
def emailEq (stored : Prim) : JSON → Bool
  | JSON.prim p => decide (stored = p)
  | _ => false

/-- The handler `GET`: the whole array, 200. -/
def GET (users : List User) : Response (List User) := ⟨200, some users⟩

/-- The handler `POST`. -/
def POST (users : List User) (body : JSON) : Response User × List User :=
  match body with
  | JSON.null => (Response.fail 400, users) -- destructuring `null` throws: catch block
  | _ =>
    let name := body.prop "name"
    let email := body.prop "email"
    let age := body.prop "age"
    if !truthy? name || !truthy? email || !truthy? age then (Response.fail 400, users)
    else
      match email with
      | some (JSON.str e) =>
        if !emailRegexTest e then (Response.fail 400, users)
        else
          match age with
          | some (JSON.num a) =>
            if a < 0 ∨ a > 120 then (Response.fail 400, users)
            else if users.any (fun user => emailEq user.email (JSON.str e)) then
              (Response.fail 409, users)
            else
              let newId := (mathMax (users.map (fun u => u.id))).add (JSNum.fin 1)
              match name with
              | some (JSON.str n) =>
                let newUser : User :=
                  ⟨newId, trim n, Prim.str (toLowerCase (trim e)), parseIntNum a⟩
                (⟨201, some newUser⟩, users ++ [newUser])
              | _ => (Response.fail 400, users) -- `name.trim` is not a function: catch block
          | _ => (Response.fail 400, users) -- `typeof age !== 'number'`
      -- An email that is not a string is answered with 400: either its string form fails
      -- the pattern, or it passes, is equal to no stored email, and `email.trim()` throws
      -- before `users.push`; an age out of range in between is answered with 400 as well.
      | _ => (Response.fail 400, users)

/-- The email checks of `PUT`: `none` when the body has no `email`, the value to merge
otherwise, or the status of the rejection. -/
def checkEmail (users : List User) (id : JSNum) : Option JSON → Except Nat (Option Prim)
  | none => Except.ok none
  | some (JSON.prim p) =>
    if !(JSON.prim p).truthy then Except.ok (some p) -- `if (updateFields.email)` is skipped
    else
      match p with
      | Prim.str e =>
        if !emailRegexTest e then Except.error 400
        else if users.any (fun user => decide (user.email = Prim.str e) && !user.id.strictEq id)
        then Except.error 409
        else Except.ok (some (Prim.str (toLowerCase (trim e))))
      | _ => Except.error 400 -- the string form of a number or boolean fails the pattern
  -- An object fails the pattern; an array fails it or `email.trim()` throws: catch block.
  | some _ => Except.error 400

/-- The age check of `PUT`. -/
def checkAge : Option JSON → Except Nat (Option ℚ)
  | none => Except.ok none
  | some (JSON.num a) => if a < 0 ∨ a > 120 then Except.error 400 else Except.ok (some a)
  | some _ => Except.error 400

/-- The name check of `PUT`. -/
def checkName : Option JSON → Except Nat (Option String)
  | none => Except.ok none
  | some (JSON.str n) =>
    if (trim n).length = 0 then Except.error 400 else Except.ok (some (trim n))
  | some _ => Except.error 400 -- `name.trim` is not a function: catch block

/-- The handler `PUT`. -/
def PUT (users : List User) (body : JSON) : Response User × List User :=
  match body with
  | JSON.null => (Response.fail 400, users) -- destructuring `null` throws: catch block
  | _ =>
    let id := body.prop "id"
    let updateFields := body.restKeys "id"
    if !truthy? id then (Response.fail 400, users)
    else
      let pid := (id.map JSON.parseInt).getD JSNum.nan
      match users.findIdx? (fun u => u.id.strictEq pid) with
      | none => (Response.fail 404, users)
      | some userIndex =>
        if updateFields.any (fun field => !allowedFields.contains field) then
          (Response.fail 400, users)
        else
          match checkEmail users pid (body.prop "email") with
          | Except.error st => (Response.fail st, users)
          | Except.ok email =>
            match checkAge (body.prop "age") with
            | Except.error st => (Response.fail st, users)
            | Except.ok age =>
              match checkName (body.prop "name") with
              | Except.error st => (Response.fail st, users)
              | Except.ok name =>
                match users.get? userIndex with
                | none => (Response.fail 400, users) -- not reached: the index was found
                | some old =>
                  let updated : User :=
                    ⟨old.id, name.getD old.name, email.getD old.email, age.getD old.age⟩
                  (⟨200, some updated⟩, users.set userIndex updated)

/-- The handler `DELETE`. -/
def DELETE (users : List User) (body : JSON) : Response (Deletion User) × List User :=
  match body with
  | JSON.null => (Response.fail 400, users) -- destructuring `null` throws: catch block
  | _ =>
    let id := body.prop "id"
    if !truthy? id then (Response.fail 400, users)
    else
      let pid := (id.map JSON.parseInt).getD JSNum.nan
      match users.findIdx? (fun u => u.id.strictEq pid) with
      | none => (Response.fail 404, users)
      | some userIndex =>
        match users.get? userIndex with
        | none => (Response.fail 400, users) -- not reached: the index was found
        | some deletedUser =>
          (⟨200, some ⟨deletedUser, (users.eraseIdx userIndex).length⟩⟩,
            users.eraseIdx userIndex)

end Users

/-! ## Products: `src/app/api/products/route.js` -/

/-- A record of a `products` array. -/
structure Product where
  id : JSNum
  name : String
  price : ℚ
deriving DecidableEq, Inhabited

/-- The array `products` as the collection route initialises it. -/
def products : List Product :=
  [ ⟨JSNum.fin 1, "Laptop", 1200⟩,
    ⟨JSNum.fin 2, "Mouse", 25⟩,
    ⟨JSNum.fin 3, "Teclado", 50⟩,
    ⟨JSNum.fin 4, "Monitor", 300⟩,
    ⟨JSNum.fin 5, "Webcam", 80⟩,
    ⟨JSNum.fin 6, "Auriculares", 150⟩,
    ⟨JSNum.fin 7, "Teclado Gaming", 120⟩,
    ⟨JSNum.fin 8, "Mouse Gaming", 60⟩ ]

/-- The call `xs.sort(comparator)`.  The sort of ECMAScript is stable and a comparator
result of `NaN` counts as zero, so for a consistent comparator every implementation
returns the list that insertion from the right returns: `a` stays before `b` unless the
comparator is positive. -/
def sort {α : Type} (comparator : α → α → JSNum) (xs : List α) : List α :=
  xs.insertionSort (fun a b => (JSNum.fin 0).lt (comparator a b) = false)

namespace Products

/-- The query parameters product list reads; `none` is the `null` of
`searchParams.get`. -/
structure Query where
  minPrice : Option String
  maxPrice : Option String
  name : Option String
  sortBy : Option String
  order : Option String
deriving DecidableEq, Inhabited

/-- The payload of product list: the records and the two counts of the metadata. -/
structure Listing where
  products : List Product
  total : Nat
  filtered : Nat
deriving DecidableEq

/-- The minimum price filter of `GET`. -/
def filterMin (minPrice : Option String) (ps : List Product) : List Product :=
  match minPrice with
  | none => ps
  | some s =>
    let min := parseFloat s
    if !min.isNaN then ps.filter (fun product => min.le (JSNum.fin product.price)) else ps

/-- The maximum price filter of `GET`. -/
def filterMax (maxPrice : Option String) (ps : List Product) : List Product :=
  match maxPrice with
  | none => ps
  | some s =>
    let max := parseFloat s
    if !max.isNaN then ps.filter (fun product => (JSNum.fin product.price).le max) else ps

/-- The name filter of `GET`: skipped when `name` is `null` or empty. -/
def filterName (name : Option String) (ps : List Product) : List Product :=
  match name with
  | none => ps
  | some s =>
    if s != "" then
      let searchName := trim (toLowerCase s)
      ps.filter (fun product => includes (toLowerCase product.name) searchName)
    else ps

/-- The comparator `GET` passes to `sort`. -/
def comparator (localeCompare : String → String → ℤ) (sortBy : String)
    (order : Option String) (a b : Product) : JSNum :=
  let comparison : JSNum :=
    if sortBy = "price" then JSNum.fin (a.price - b.price)
    else if sortBy = "name" then JSNum.fin (localeCompare a.name b.name)
    else if sortBy = "id" then a.id.sub b.id
    else JSNum.fin 0
  if order = some "desc" then comparison.neg else comparison

/-- The ordering step of `GET`: skipped when `sortBy` is `null` or empty. -/
def sortStep (localeCompare : String → String → ℤ) (sortBy order : Option String)
    (ps : List Product) : List Product :=
  match sortBy with
  | none => ps
  | some k => if k != "" then sort (comparator localeCompare k order) ps else ps

/-- The handler `GET` (product list). -/
def GET (localeCompare : String → String → ℤ) (products : List Product) (q : Query) :
    Response Listing :=
  let filteredProducts :=
    sortStep localeCompare q.sortBy q.order
      (filterName q.name (filterMax q.maxPrice (filterMin q.minPrice products)))
  ⟨200, some ⟨filteredProducts, products.length, filteredProducts.length⟩⟩

/-- The records product list returns. -/
def listed (localeCompare : String → String → ℤ) (products : List Product) (q : Query) :
    List Product :=
  match (GET localeCompare products q).payload with
  | some l => l.products
  | none => []

/-- The handler `POST` (product create), with the method `toLowerCase` of the host as a
parameter. -/
def POSTWith (toLowerCase : String → String) (products : List Product) (body : JSON) :
    Response Product × List Product :=
  match body with
  | JSON.null => (Response.fail 400, products) -- destructuring `null` throws: catch block
  | _ =>
    let name := body.prop "name"
    let price := body.prop "price"
    if !truthy? name || price.isNone then (Response.fail 400, products)
    else
      match name, price with
      | some (JSON.str n), some (JSON.num p) =>
        if p ≤ 0 then (Response.fail 400, products)
        else if products.any (fun product => toLowerCase product.name == trim (toLowerCase n))
        then (Response.fail 409, products)
        else
          let newId := (mathMax (products.map (fun p => p.id))).add (JSNum.fin 1)
          -- `parseFloat(price)` of a number is that number
          let newProduct : Product := ⟨newId, trim n, p⟩
          (⟨201, some newProduct⟩, products ++ [newProduct])
      | _, _ => (Response.fail 400, products) -- wrong `typeof`

/-- The handler `POST` (product create), evaluated with `toLowerCase` on `A`..`Z`. -/
def POST (products : List Product) (body : JSON) : Response Product × List Product :=
  POSTWith MiApi.toLowerCase products body

end Products

/-! ## Products by id: `src/app/api/products/[id]/route.js` -/

namespace ProductsById

/-- The array `products` as the by-id route initialises it: an array of its own. -/
def products : List Product :=
  [ ⟨JSNum.fin 1, "Laptop", 1200⟩,
    ⟨JSNum.fin 2, "Mouse", 25⟩,
    ⟨JSNum.fin 3, "Teclado", 50⟩ ]

/-- The handler `GET` (product by id); `id` is the path parameter. -/
def GET (products : List Product) (id : String) : Response Product :=
  let productId := parseIntStr id
  if productId.isNaN then Response.fail 400
  else
    match products.find? (fun p => p.id.strictEq productId) with
    | none => Response.fail 404
    | some product => ⟨200, some product⟩

/-- The handler `DELETE` (product by id); `id` is the path parameter. -/
def DELETE (products : List Product) (id : String) :
    Response (Deletion Product) × List Product :=
  let productId := parseIntStr id
  if productId.isNaN then (Response.fail 400, products)
  else
    match products.findIdx? (fun p => p.id.strictEq productId) with
    | none => (Response.fail 404, products)
    | some productIndex =>
      match products.get? productIndex with
      | none => (Response.fail 500, products) -- not reached: the index was found
      | some deletedProduct =>
        (⟨200, some ⟨deletedProduct, (products.eraseIdx productIndex).length⟩⟩,
          products.eraseIdx productIndex)

/-- The handler `POST` of the by-id route: method not allowed. -/
def POST (products : List Product) : Response Product × List Product :=
  (Response.fail 405, products)

/-- The handler `PUT` of the by-id route: method not allowed. -/
def PUT (products : List Product) : Response Product × List Product :=
  (Response.fail 405, products)

end ProductsById

/-! ## Sequences of requests -/

/-- A request to the users route that can change the array. -/
inductive UserRequest where
  | post (body : JSON)
  | put (body : JSON)
  | delete (body : JSON)

/-- The `users` array after one request. -/
def UserRequest.apply (users : List User) : UserRequest → List User
  | UserRequest.post body => (Users.POST users body).2
  | UserRequest.put body => (Users.PUT users body).2
  | UserRequest.delete body => (Users.DELETE users body).2

/-- The `users` array after a sequence of requests. -/
def runUsers (users : List User) (reqs : List UserRequest) : List User :=
  reqs.foldl UserRequest.apply users

/-- The ids of a collection are pairwise distinct under `===`. -/
def distinctIds (ids : List JSNum) : Prop :=
  ids.Pairwise (fun a b => a.strictEq b = false)

instance (ids : List JSNum) : Decidable (distinctIds ids) := by
  unfold distinctIds; infer_instance

/-- A JSON object with the given properties. -/
def mkObj (kvs : List (String × JSON)) : JSON := JSON.obj kvs

/-- A number that is neither `NaN` nor infinite. -/
def JSNum.isFinite : JSNum → Bool
  | JSNum.fin _ => true
  | _ => false

/-- The decimal digit `d` as a character. -/
def digitChar (d : Nat) : Char :=
  match d with
  | 0 => '0' | 1 => '1' | 2 => '2' | 3 => '3' | 4 => '4'
  | 5 => '5' | 6 => '6' | 7 => '7' | 8 => '8' | _ => '9'

/-- The decimal digits of a natural number, most significant first (`fuel` bounds their
number). -/
def natDigits : Nat → Nat → List Char
  | 0, _ => []
  | fuel + 1, n =>
    if n < 10 then [digitChar n] else natDigits fuel (n / 10) ++ [digitChar (n % 10)]

/-- The decimal text of an integer, as it stands in a path. -/
def decimalText (m : ℤ) : String :=
  String.mk (if m < 0 then '-' :: natDigits (m.natAbs + 1) m.natAbs
    else natDigits (m.natAbs + 1) m.natAbs)

/-- A character `0`..`9`. -/
def isDec (c : Char) : Bool := decide (48 ≤ c.toNat) && decide (c.toNat ≤ 57)

/-- A comparator on strings by code points, an instance of the parameter `localeCompare`
for examples. -/
def codePointCompare (a b : String) : ℤ :=
  if a < b then -1 else if a = b then 0 else 1

/-- A valid body for user create. -/
def anaBody : JSON :=
  mkObj [("name", JSON.str "Ana"), ("email", JSON.str "ana@example.com"), ("age", JSON.num 20)]

/-- A valid body for product create. -/
def tabletBody : JSON :=
  mkObj [("name", JSON.str "Tablet"), ("price", JSON.num 99)]

/-- The name `Café` written with the letter U+00E9, as a product with the id 9. -/
def cafeComposed : Product := ⟨JSNum.fin 9, "Caf\u00e9", 3⟩

/-- The name `Café` written with the letter `e` and the combining accent U+0301, as a
product with the id 10. -/
def cafeDecomposed : Product := ⟨JSNum.fin 10, "Cafe\u0301", 4⟩

/-- The `products` array of the collection route after a sequence of product creates;
`lower` is the method `toLowerCase` of the host. -/
def runProducts (lower : String → String) (products : List Product) (bodies : List JSON) :
    List Product :=
  bodies.foldl (fun ps body => (Products.POSTWith lower ps body).2) products

/-- The stored names are trimmed and pairwise distinct ignoring letter case: no two have
the same lowercase form. -/
def namesUnique (lower : String → String) (ps : List Product) : Prop :=
  (∀ p ∈ ps, trim p.name = p.name) ∧ ps.Pairwise (fun p q => lower p.name ≠ lower q.name)

instance (lower : String → String) (ps : List Product) : Decidable (namesUnique lower ps) := by
  unfold namesUnique; infer_instance

/-- A user record with a non-empty trimmed name and an integer age in `[0, 120]`. -/
def wellFormed (u : User) : Prop :=
  u.name ≠ "" ∧ trim u.name = u.name ∧ u.age = (⌊u.age⌋ : ℚ) ∧ 0 ≤ u.age ∧ u.age ≤ 120

instance (u : User) : Decidable (wellFormed u) := by
  unfold wellFormed; infer_instance

/-- The two module-level arrays of the product routes: `products` of
`products/route.js` and `products` of `products/[id]/route.js`. -/
structure ProductStore where
  products : List Product
  productsById : List Product

/-- The product arrays as the two modules initialise them. -/
def ProductStore.init : ProductStore := ⟨MiApi.products, ProductsById.products⟩

/-- A request to the product routes that can change an array. -/
inductive ProductRequest where
  | post (body : JSON)
  | deleteById (id : String)

/-- The product arrays after one request: each handler writes the array of its own
module. -/
def ProductRequest.apply (s : ProductStore) : ProductRequest → ProductStore
  | ProductRequest.post body => ⟨(Products.POST s.products body).2, s.productsById⟩
  | ProductRequest.deleteById id => ⟨s.products, (ProductsById.DELETE s.productsById id).2⟩

/-- The product arrays after a sequence of requests. -/
def runStore (s : ProductStore) (reqs : List ProductRequest) : ProductStore :=
  reqs.foldl ProductRequest.apply s

/-- The query of product list without parameters. -/
def noQuery : Products.Query := ⟨none, none, none, none, none⟩

/-! ## Auxiliary facts -/

theorem max2_fin (a b : ℚ) : max2 (JSNum.fin a) (JSNum.fin b) = JSNum.fin (max a b) := by
  unfold max2
  simp only [JSNum.isNaN, JSNum.lt, Bool.or_self, Bool.false_eq_true, if_false, decide_eq_true_eq]
  split_ifs with h
  · rw [max_eq_right h.le]
  · rw [max_eq_left (not_lt.mp h)]

theorem foldl_max2_fin (ids : List JSNum) (hfin : ∀ i ∈ ids, ∃ q, i = JSNum.fin q) (a : ℚ) :
    ∃ m, ids.foldl max2 (JSNum.fin a) = JSNum.fin m ∧ a ≤ m ∧
      (m = a ∨ JSNum.fin m ∈ ids) ∧ ∀ q, JSNum.fin q ∈ ids → q ≤ m := by
  induction ids generalizing a with
  | nil => exact ⟨a, rfl, le_refl _, Or.inl rfl, by simp⟩
  | cons i rest ih =>
    obtain ⟨q, rfl⟩ := hfin i (List.mem_cons_self _ _)
    obtain ⟨m, hm, hle, hmem, hub⟩ :=
      ih (fun j hj => hfin j (List.mem_cons_of_mem _ hj)) (max a q)
    refine ⟨m, ?_, le_trans (le_max_left _ _) hle, ?_, ?_⟩
    · rw [List.foldl_cons, max2_fin, hm]
    · rcases hmem with h | h
      · rcases le_total a q with haq | haq
        · right; rw [h, max_eq_right haq]; exact List.mem_cons_self _ _
        · left; rw [h, max_eq_left haq]
      · right; exact List.mem_cons_of_mem _ h
    · intro r hr
      rcases List.mem_cons.mp hr with h | h
      · injection h with h; rw [h]; exact le_trans (le_max_right _ _) hle
      · exact hub r h

theorem JSNum_le_trans (a b c : JSNum) (hab : a.le b = true) (hbc : b.le c = true) :
    a.le c = true := by
  cases a <;> cases b <;> cases c <;> simp_all [JSNum.le]
  exact le_trans hab hbc

theorem max2_spec (a b : JSNum) (ha : a.isNaN = false) (hb : b.isNaN = false) :
    (max2 a b).isNaN = false ∧ (max2 a b = a ∨ max2 a b = b) ∧
      a.le (max2 a b) = true ∧ b.le (max2 a b) = true := by
  unfold max2
  rw [ha, hb]
  cases a <;> cases b <;> simp_all [JSNum.isNaN, JSNum.lt, JSNum.le]
  rename_i x y
  by_cases h : x < y
  · simp [h, JSNum.le, le_of_lt h]
  · simp [h, JSNum.le, not_lt.mp h]

theorem foldl_max2_spec (ids : List JSNum) (hid : ∀ i ∈ ids, i.isNaN = false) (a : JSNum)
    (ha : a.isNaN = false) :
    (ids.foldl max2 a).isNaN = false ∧ (ids.foldl max2 a = a ∨ ids.foldl max2 a ∈ ids) ∧
      a.le (ids.foldl max2 a) = true ∧ ∀ i ∈ ids, i.le (ids.foldl max2 a) = true := by
  induction ids generalizing a with
  | nil =>
    refine ⟨ha, Or.inl rfl, ?_, by simp⟩
    cases a <;> simp_all [JSNum.isNaN, JSNum.le]
  | cons i rest ih =>
    have hi : i.isNaN = false := hid i (List.mem_cons_self _ _)
    obtain ⟨hn, hor, hale, hile⟩ := max2_spec a i ha hi
    obtain ⟨rn, ror, rle, rall⟩ :=
      ih (fun j hj => hid j (List.mem_cons_of_mem _ hj)) (max2 a i) hn
    rw [List.foldl_cons]
    refine ⟨rn, ?_, JSNum_le_trans _ _ _ hale rle, ?_⟩
    · rcases ror with h | h
      · rcases hor with h2 | h2
        · exact Or.inl (h.trans h2)
        · exact Or.inr (by rw [h, h2]; exact List.mem_cons_self _ _)
      · exact Or.inr (List.mem_cons_of_mem _ h)
    · intro j hj
      rcases List.mem_cons.mp hj with rfl | hj
      · exact JSNum_le_trans _ _ _ hile rle
      · exact rall j hj

/-- The value of `Math.max(...ids)` on a non-empty array without `NaN` is an element of
the array that no element exceeds. -/
theorem mathMax_spec (ids : List JSNum) (hne : ids ≠ [])
    (hid : ∀ i ∈ ids, i.isNaN = false) :
    mathMax ids ∈ ids ∧ ∀ i ∈ ids, i.le (mathMax ids) = true := by
  obtain ⟨-, hor, -, hall⟩ := foldl_max2_spec ids hid JSNum.negInf rfl
  refine ⟨?_, hall⟩
  rcases hor with h | h
  · cases ids with
    | nil => exact absurd rfl hne
    | cons i rest =>
      have hi := hall i (List.mem_cons_self _ _)
      unfold mathMax
      rw [h] at hi ⊢
      cases i <;> simp_all [JSNum.le]
  · exact h

theorem mathMax_fin (ids : List JSNum) (hne : ids ≠ [])
    (hfin : ∀ i ∈ ids, ∃ q, i = JSNum.fin q) :
    ∃ m, mathMax ids = JSNum.fin m ∧ JSNum.fin m ∈ ids ∧ ∀ q, JSNum.fin q ∈ ids → q ≤ m := by
  cases ids with
  | nil => exact absurd rfl hne
  | cons i rest =>
    obtain ⟨q, rfl⟩ := hfin i (List.mem_cons_self _ _)
    obtain ⟨m, hm, hle, hmem, hub⟩ :=
      foldl_max2_fin rest (fun j hj => hfin j (List.mem_cons_of_mem _ hj)) q
    refine ⟨m, ?_, ?_, ?_⟩
    · unfold mathMax
      rw [List.foldl_cons]
      have : max2 JSNum.negInf (JSNum.fin q) = JSNum.fin q := by
        simp [max2, JSNum.isNaN, JSNum.lt]
      rw [this, hm]
    · rcases hmem with h | h
      · rw [h]; exact List.mem_cons_self _ _
      · exact List.mem_cons_of_mem _ h
    · intro r hr
      rcases List.mem_cons.mp hr with h | h
      · injection h with h; rw [h]; exact hle
      · exact hub r h

theorem users_POST_cases (users : List User) (body : JSON) :
    (∃ st, st ≠ 201 ∧ st ≠ 200 ∧ Users.POST users body = (Response.fail st, users)) ∨
    (∃ n e a, body.prop "name" = some (JSON.str n) ∧ body.prop "email" = some (JSON.str e) ∧
      body.prop "age" = some (JSON.num a) ∧ n ≠ "" ∧ e ≠ "" ∧ a ≠ 0 ∧
      emailRegexTest e = true ∧ 0 ≤ a ∧ a ≤ 120 ∧
      (∀ u ∈ users, u.email ≠ Prim.str e) ∧
      Users.POST users body =
        (⟨201, some ⟨(mathMax (users.map (fun u => u.id))).add (JSNum.fin 1), trim n,
            Prim.str (toLowerCase (trim e)), parseIntNum a⟩⟩,
          users ++ [⟨(mathMax (users.map (fun u => u.id))).add (JSNum.fin 1), trim n,
            Prim.str (toLowerCase (trim e)), parseIntNum a⟩])) := by
  unfold Users.POST
  split
  · left; exact ⟨400, by decide, by decide, rfl⟩
  · dsimp only
    split
    · left; exact ⟨400, by decide, by decide, rfl⟩
    · rename_i h1
      split
      · rename_i e he
        split
        · left; exact ⟨400, by decide, by decide, rfl⟩
        · rename_i h2
          split
          · rename_i a ha
            split
            · left; exact ⟨400, by decide, by decide, rfl⟩
            · rename_i h3
              split
              · left; exact ⟨409, by decide, by decide, rfl⟩
              · rename_i h4
                split
                · rename_i n hn
                  right
                  simp only [hn, he, ha, truthy?, JSON.truthy, Bool.or_eq_true, Bool.not_eq_true',
                    not_or, Bool.not_eq_false, bne_iff_ne, ne_eq, decide_eq_true_eq] at h1
                  simp only [Bool.not_eq_true', Bool.not_eq_false] at h2
                  simp only [not_or, not_lt] at h3
                  simp only [List.any_eq_true, not_exists, not_and, Users.emailEq, decide_eq_true_eq] at h4
                  exact ⟨n, e, a, hn, he, ha, h1.1.1, h1.1.2, h1.2, h2, h3.1, h3.2,
                    fun u hu => h4 u hu, rfl⟩
                · left; exact ⟨400, by decide, by decide, rfl⟩
          · left; exact ⟨400, by decide, by decide, rfl⟩
      · left; exact ⟨400, by decide, by decide, rfl⟩

theorem products_POSTWith_cases (lower : String → String) (products : List Product)
    (body : JSON) :
    (∃ st, st ≠ 201 ∧ st ≠ 200 ∧ Products.POSTWith lower products body = (Response.fail st, products)) ∨
    (∃ n p, body.prop "name" = some (JSON.str n) ∧ body.prop "price" = some (JSON.num p) ∧
      n ≠ "" ∧ 0 < p ∧
      (∀ x ∈ products, lower x.name ≠ trim (lower n)) ∧
      Products.POSTWith lower products body =
        (⟨201, some ⟨(mathMax (products.map (fun x => x.id))).add (JSNum.fin 1), trim n, p⟩⟩,
          products ++ [⟨(mathMax (products.map (fun x => x.id))).add (JSNum.fin 1), trim n, p⟩])) := by
  unfold Products.POSTWith
  split
  · left; exact ⟨400, by decide, by decide, rfl⟩
  · dsimp only
    split
    · left; exact ⟨400, by decide, by decide, rfl⟩
    · rename_i h1
      split
      · rename_i n p hn hp
        split
        · left; exact ⟨400, by decide, by decide, rfl⟩
        · rename_i h2
          split
          · left; exact ⟨409, by decide, by decide, rfl⟩
          · rename_i h3
            right
            simp only [hn, hp, truthy?, JSON.truthy, Bool.or_eq_true, Bool.not_eq_true',
              not_or, Bool.not_eq_false, bne_iff_ne, ne_eq, Option.isNone_some] at h1
            simp only [List.any_eq_true, not_exists, not_and, beq_iff_eq] at h3
            exact ⟨n, p, hn, hp, h1.1, not_le.mp h2, fun x hx => h3 x hx, rfl⟩
      · left; exact ⟨400, by decide, by decide, rfl⟩

theorem products_POST_cases (products : List Product) (body : JSON) :
    (∃ st, st ≠ 201 ∧ st ≠ 200 ∧ Products.POST products body = (Response.fail st, products)) ∨
    (∃ n p, body.prop "name" = some (JSON.str n) ∧ body.prop "price" = some (JSON.num p) ∧
      n ≠ "" ∧ 0 < p ∧
      (∀ x ∈ products, toLowerCase x.name ≠ trim (toLowerCase n)) ∧
      Products.POST products body =
        (⟨201, some ⟨(mathMax (products.map (fun x => x.id))).add (JSNum.fin 1), trim n, p⟩⟩,
          products ++ [⟨(mathMax (products.map (fun x => x.id))).add (JSNum.fin 1), trim n, p⟩])) :=
  products_POSTWith_cases toLowerCase products body

theorem users_checkEmail_error (users : List User) (id : JSNum) (v : Option JSON) (st : Nat)
    (h : Users.checkEmail users id v = Except.error st) : st = 400 ∨ st = 409 := by
  unfold Users.checkEmail at h
  split at h
  · cases h
  · split at h
    · cases h
    · split at h
      · split at h
        · injection h with h; exact Or.inl h.symm
        · split at h
          · injection h with h; exact Or.inr h.symm
          · cases h
      · injection h with h; exact Or.inl h.symm
  · injection h with h; exact Or.inl h.symm

theorem users_checkAge_error (v : Option JSON) (st : Nat)
    (h : Users.checkAge v = Except.error st) : st = 400 := by
  unfold Users.checkAge at h
  split at h
  · cases h
  · split at h
    · injection h with h; exact h.symm
    · cases h
  · injection h with h; exact h.symm

theorem users_checkName_error (v : Option JSON) (st : Nat)
    (h : Users.checkName v = Except.error st) : st = 400 := by
  unfold Users.checkName at h
  split at h
  · cases h
  · split at h
    · injection h with h; exact h.symm
    · cases h
  · injection h with h; exact h.symm

theorem truthy?_eq_true (o : Option JSON) (h : truthy? o = true) :
    ∃ v, o = some v ∧ v.truthy = true := by
  cases o with
  | none => simp [truthy?] at h
  | some v => exact ⟨v, rfl, h⟩

theorem users_PUT_cases (users : List User) (body : JSON) :
    (∃ st, st ≠ 200 ∧ st ≠ 201 ∧ Users.PUT users body = (Response.fail st, users)) ∨
    (∃ v i old email age name, body.prop "id" = some v ∧ v.truthy = true ∧
      users.findIdx? (fun u => u.id.strictEq v.parseInt) = some i ∧
      users.get? i = some old ∧
      (∀ k ∈ body.restKeys "id", k ∈ Users.allowedFields) ∧
      Users.checkEmail users v.parseInt (body.prop "email") = Except.ok email ∧
      Users.checkAge (body.prop "age") = Except.ok age ∧
      Users.checkName (body.prop "name") = Except.ok name ∧
      Users.PUT users body =
        (⟨200, some ⟨old.id, name.getD old.name, email.getD old.email, age.getD old.age⟩⟩,
          users.set i ⟨old.id, name.getD old.name, email.getD old.email, age.getD old.age⟩)) := by
  unfold Users.PUT
  split
  · left; exact ⟨400, by decide, by decide, rfl⟩
  · dsimp only
    split
    · left; exact ⟨400, by decide, by decide, rfl⟩
    · rename_i h1
      simp only [Bool.not_eq_true', Bool.not_eq_false] at h1
      obtain ⟨v, hv, hvt⟩ := truthy?_eq_true _ h1
      simp only [hv, Option.map_some', Option.getD_some]
      split
      · left; exact ⟨404, by decide, by decide, rfl⟩
      · rename_i i hi
        split
        · left; exact ⟨400, by decide, by decide, rfl⟩
        · rename_i h2
          split
          · rename_i st he
            left
            rcases users_checkEmail_error _ _ _ _ he with h | h <;> subst h
            · exact ⟨400, by decide, by decide, rfl⟩
            · exact ⟨409, by decide, by decide, rfl⟩
          · rename_i email he
            split
            · rename_i st ha
              left
              have h := users_checkAge_error _ _ ha
              subst h
              exact ⟨400, by decide, by decide, rfl⟩
            · rename_i age ha
              split
              · rename_i st hn
                left
                have h := users_checkName_error _ _ hn
                subst h
                exact ⟨400, by decide, by decide, rfl⟩
              · rename_i name hn
                split
                · left; exact ⟨400, by decide, by decide, rfl⟩
                · rename_i old hold
                  right
                  refine ⟨v, i, old, email, age, name, rfl, hvt, hi, hold, ?_, he, ha, hn, rfl⟩
                  intro k hk
                  simp only [List.any_eq_true, not_exists, not_and, Bool.not_eq_true',
                    Bool.not_eq_false] at h2
                  have := h2 k hk
                  simpa using this

theorem users_DELETE_cases (users : List User) (body : JSON) :
    (∃ st, st ≠ 200 ∧ st ≠ 201 ∧ Users.DELETE users body = (Response.fail st, users)) ∨
    (∃ v i old, body.prop "id" = some v ∧ v.truthy = true ∧
      users.findIdx? (fun u => u.id.strictEq v.parseInt) = some i ∧
      users.get? i = some old ∧
      Users.DELETE users body =
        (⟨200, some ⟨old, (users.eraseIdx i).length⟩⟩, users.eraseIdx i)) := by
  unfold Users.DELETE
  split
  · left; exact ⟨400, by decide, by decide, rfl⟩
  · dsimp only
    split
    · left; exact ⟨400, by decide, by decide, rfl⟩
    · rename_i h1
      simp only [Bool.not_eq_true', Bool.not_eq_false] at h1
      obtain ⟨v, hv, hvt⟩ := truthy?_eq_true _ h1
      simp only [hv, Option.map_some', Option.getD_some]
      split
      · left; exact ⟨404, by decide, by decide, rfl⟩
      · rename_i i hi
        split
        · left; exact ⟨400, by decide, by decide, rfl⟩
        · rename_i old hold
          right
          exact ⟨v, i, old, rfl, hvt, hi, hold, rfl⟩

/-! ## The claims -/

/-- C1 (the code at the failing input): user create compares the submitted email as it is
with the stored, lowercased emails.  Submitting `"A@B.com"` twice is answered with 201
both times and leaves two users with the email `"a@b.com"`. -/
theorem users_POST_accepts_case_variant_email :
    (Users.POST users (mkObj [("name", JSON.str "Ana"), ("email", JSON.str "A@B.com"),
      ("age", JSON.num 20)])).1.status = 201 ∧
    (Users.POST (Users.POST users (mkObj [("name", JSON.str "Ana"),
      ("email", JSON.str "A@B.com"), ("age", JSON.num 20)])).2
      (mkObj [("name", JSON.str "Ana"), ("email", JSON.str "A@B.com"),
        ("age", JSON.num 20)])).1.status = 201 ∧
    (Users.POST (Users.POST users (mkObj [("name", JSON.str "Ana"),
      ("email", JSON.str "A@B.com"), ("age", JSON.num 20)])).2
      (mkObj [("name", JSON.str "Ana"), ("email", JSON.str "A@B.com"),
        ("age", JSON.num 20)])).2.map (fun u => u.email) =
      [Prim.str "juan@example.com", Prim.str "maria@example.com",
        Prim.str "carlos@example.com", Prim.str "a@b.com", Prim.str "a@b.com"] := by
  decide!

/-- The id a create assigns, on a non-empty collection with finite ids: the largest id
plus one, above every id of the collection. -/
theorem newId_spec (ids : List JSNum) (hne : ids ≠ [])
    (hfin : ∀ i ∈ ids, i.isFinite = true) :
    ∃ m, (mathMax ids).add (JSNum.fin 1) = JSNum.fin (m + 1) ∧ JSNum.fin m ∈ ids ∧
      (∀ q, JSNum.fin q ∈ ids → q ≤ m) ∧
      ∀ i ∈ ids, i.lt (JSNum.fin (m + 1)) = true := by
  have hfin' : ∀ i ∈ ids, ∃ q, i = JSNum.fin q := by
    intro i hi
    have := hfin i hi
    cases i <;> simp [JSNum.isFinite] at this
    exact ⟨_, rfl⟩
  obtain ⟨m, hm, hmem, hub⟩ := mathMax_fin ids hne hfin'
  refine ⟨m, by rw [hm]; rfl, hmem, hub, ?_⟩
  intro i hi
  obtain ⟨q, rfl⟩ := hfin' i hi
  have := hub q hi
  simp only [JSNum.lt, decide_eq_true_eq]
  linarith

/-- Create on a non-empty collection in which every id is a finite number: a create that
succeeds (status 201) returns and appends a record whose id is the largest id of the
collection plus one, which is strictly greater than every id that was in the collection;
for user create and for product create. -/
theorem create_assigns_max_id_plus_one (us : List User) (ps : List Product) (ub pb : JSON)
    (hus : us ≠ []) (hps : ps ≠ [])
    (hufin : ∀ u ∈ us, u.id.isFinite = true) (hpfin : ∀ p ∈ ps, p.id.isFinite = true) :
    ((Users.POST us ub).1.status = 201 →
      ∃ m newUser, (Users.POST us ub).1.payload = some newUser ∧
        (Users.POST us ub).2 = us ++ [newUser] ∧
        (∃ u ∈ us, u.id = JSNum.fin m) ∧ (∀ u ∈ us, ∀ q, u.id = JSNum.fin q → q ≤ m) ∧
        newUser.id = JSNum.fin (m + 1) ∧ ∀ u ∈ us, u.id.lt newUser.id = true) ∧
    ((Products.POST ps pb).1.status = 201 →
      ∃ m newProduct, (Products.POST ps pb).1.payload = some newProduct ∧
        (Products.POST ps pb).2 = ps ++ [newProduct] ∧
        (∃ p ∈ ps, p.id = JSNum.fin m) ∧ (∀ p ∈ ps, ∀ q, p.id = JSNum.fin q → q ≤ m) ∧
        newProduct.id = JSNum.fin (m + 1) ∧ ∀ p ∈ ps, p.id.lt newProduct.id = true) := by
  constructor
  · intro h201
    rcases users_POST_cases us ub with ⟨st, hst, -, heq⟩ | ⟨n, e, a, -, -, -, -, -, -, -, -, -, -, heq⟩
    · rw [heq] at h201; exact absurd h201 hst
    · obtain ⟨m, hm, hmem, hub, hlt⟩ := newId_spec (us.map (fun u => u.id))
        (by simpa using hus) (by simpa using hufin)
      rw [heq, hm]
      refine ⟨m, _, rfl, rfl, ?_, ?_, rfl, ?_⟩
      · obtain ⟨u, hu, hum⟩ := List.mem_map.mp hmem
        exact ⟨u, hu, hum⟩
      · intro u hu q hq
        exact hub q (List.mem_map.mpr ⟨u, hu, hq⟩)
      · intro u hu
        exact hlt _ (List.mem_map.mpr ⟨u, hu, rfl⟩)
  · intro h201
    rcases products_POST_cases ps pb with ⟨st, hst, -, heq⟩ | ⟨n, p, -, -, -, -, -, heq⟩
    · rw [heq] at h201; exact absurd h201 hst
    · obtain ⟨m, hm, hmem, hub, hlt⟩ := newId_spec (ps.map (fun x => x.id))
        (by simpa using hps) (by simpa using hpfin)
      rw [heq, hm]
      refine ⟨m, _, rfl, rfl, ?_, ?_, rfl, ?_⟩
      · obtain ⟨x, hx, hxm⟩ := List.mem_map.mp hmem
        exact ⟨x, hx, hxm⟩
      · intro x hx q hq
        exact hub q (List.mem_map.mpr ⟨x, hx, hq⟩)
      · intro x hx
        exact hlt _ (List.mem_map.mpr ⟨x, hx, rfl⟩)

/-- Create at the initial arrays: a valid user and a valid product are created with ids 4
and 9, one above the largest ids 3 and 8. -/
theorem create_assigns_max_id_plus_one_witness :
    (users ≠ [] ∧ products ≠ [] ∧ (∀ u ∈ users, u.id.isFinite = true) ∧
      (∀ p ∈ products, p.id.isFinite = true)) ∧
    (∃ m newUser, (Users.POST users anaBody).1.payload = some newUser ∧
      (Users.POST users anaBody).2 = users ++ [newUser] ∧
      (∃ u ∈ users, u.id = JSNum.fin m) ∧ (∀ u ∈ users, ∀ q, u.id = JSNum.fin q → q ≤ m) ∧
      newUser.id = JSNum.fin (m + 1) ∧ ∀ u ∈ users, u.id.lt newUser.id = true) ∧
    (∃ m newProduct, (Products.POST products tabletBody).1.payload = some newProduct ∧
      (Products.POST products tabletBody).2 = products ++ [newProduct] ∧
      (∃ p ∈ products, p.id = JSNum.fin m) ∧
      (∀ p ∈ products, ∀ q, p.id = JSNum.fin q → q ≤ m) ∧
      newProduct.id = JSNum.fin (m + 1) ∧ ∀ p ∈ products, p.id.lt newProduct.id = true) :=
  ⟨⟨by decide, by decide, by decide, by decide⟩,
    (create_assigns_max_id_plus_one users products anaBody tabletBody (by decide) (by decide)
      (by decide) (by decide)).1 (by decide!),
    (create_assigns_max_id_plus_one users products anaBody tabletBody (by decide) (by decide)
      (by decide) (by decide)).2 (by decide!)⟩

/-- C2 (the code at the failing input): after the three users are deleted and one is
created, the collection is not empty: it holds one user, whose id is `-Infinity`.  The
next create succeeds (status 201) and its record has the id `Math.max(-Infinity) + 1`,
which is `-Infinity` again: the id of the new record is not strictly greater than the id
that was in the collection, it is equal to it. -/
theorem create_after_emptying_repeats_id :
    runUsers users [UserRequest.delete (mkObj [("id", JSON.num 1)]),
      UserRequest.delete (mkObj [("id", JSON.num 2)]),
      UserRequest.delete (mkObj [("id", JSON.num 3)]),
      UserRequest.post anaBody] =
      [⟨JSNum.negInf, "Ana", Prim.str "ana@example.com", 20⟩] ∧
    Users.POST [⟨JSNum.negInf, "Ana", Prim.str "ana@example.com", 20⟩]
      (mkObj [("name", JSON.str "Luis"), ("email", JSON.str "luis@example.com"),
        ("age", JSON.num 40)]) =
      (⟨201, some ⟨JSNum.negInf, "Luis", Prim.str "luis@example.com", 40⟩⟩,
        [⟨JSNum.negInf, "Ana", Prim.str "ana@example.com", 20⟩,
          ⟨JSNum.negInf, "Luis", Prim.str "luis@example.com", 40⟩]) ∧
    mathMax [JSNum.negInf] = JSNum.negInf ∧
    JSNum.negInf.lt JSNum.negInf = false ∧
    JSNum.negInf.strictEq JSNum.negInf = true := by
  decide!

/-- C3 (the code at the failing input): after the three users are deleted, `Math.max` of no
ids is `-Infinity`, and so is every id assigned from then on: two creates leave two users
with the same id.  Product create does the same on an empty array. -/
theorem ids_repeat_after_emptying :
    distinctIds (users.map (fun u => u.id)) ∧
    (runUsers users [UserRequest.delete (mkObj [("id", JSON.num 1)]),
      UserRequest.delete (mkObj [("id", JSON.num 2)]),
      UserRequest.delete (mkObj [("id", JSON.num 3)]),
      UserRequest.post (mkObj [("name", JSON.str "Ana"), ("email", JSON.str "ana@example.com"),
        ("age", JSON.num 20)]),
      UserRequest.post (mkObj [("name", JSON.str "Luis"),
        ("email", JSON.str "luis@example.com"), ("age", JSON.num 40)])]).map (fun u => u.id) =
      [JSNum.negInf, JSNum.negInf] ∧
    ¬ distinctIds ([JSNum.negInf, JSNum.negInf]) ∧
    ((Products.POST (Products.POST [] (mkObj [("name", JSON.str "Tablet"),
      ("price", JSON.num 99)])).2 (mkObj [("name", JSON.str "Router"),
      ("price", JSON.num 40)])).2).map (fun p => p.id) = [JSNum.negInf, JSNum.negInf] := by
  decide!

theorem mem_sort {α : Type} (c : α → α → JSNum) (xs : List α) (x : α) :
    x ∈ sort c xs ↔ x ∈ xs := by
  unfold sort
  exact List.mem_insertionSort _

theorem mem_sortStep (lc : String → String → ℤ) (sortBy order : Option String)
    (ps : List Product) (p : Product) :
    p ∈ Products.sortStep lc sortBy order ps ↔ p ∈ ps := by
  unfold Products.sortStep
  split
  · rfl
  · split
    · exact mem_sort _ _ _
    · rfl

theorem mem_listed (lc : String → String → ℤ) (ps : List Product) (q : Products.Query)
    (p : Product) :
    p ∈ Products.listed lc ps q ↔
      p ∈ Products.filterName q.name
        (Products.filterMax q.maxPrice (Products.filterMin q.minPrice ps)) := by
  unfold Products.listed Products.GET
  exact mem_sortStep _ _ _ _ _

/-- C4: product list with `minPrice` and `maxPrice` that read as the numbers `X` and `Y`
returns only records with `X <= price <= Y`, whatever the name filter and the ordering;
and a record is returned with the three filters `minPrice`, `maxPrice`, `name` supplied
exactly when it is returned with each of the three supplied alone. -/
theorem list_filters_conjunctive (lc : String → String → ℤ) (ps : List Product)
    (sx sy n : String) (X Y : ℚ) (sortBy order : Option String)
    (hX : parseFloat sx = JSNum.fin X) (hY : parseFloat sy = JSNum.fin Y) :
    (∀ name, ∀ p ∈ Products.listed lc ps ⟨some sx, some sy, name, sortBy, order⟩,
      X ≤ p.price ∧ p.price ≤ Y) ∧
    (∀ p, p ∈ Products.listed lc ps ⟨some sx, some sy, some n, sortBy, order⟩ ↔
      (p ∈ Products.listed lc ps ⟨some sx, none, none, sortBy, order⟩ ∧
        p ∈ Products.listed lc ps ⟨none, some sy, none, sortBy, order⟩ ∧
        p ∈ Products.listed lc ps ⟨none, none, some n, sortBy, order⟩)) := by
  have hmin : ∀ (l : List Product) (p : Product),
      p ∈ Products.filterMin (some sx) l ↔ p ∈ l ∧ X ≤ p.price := by
    intro l p
    simp [Products.filterMin, hX, JSNum.isNaN, JSNum.le, List.mem_filter]
  have hmax : ∀ (l : List Product) (p : Product),
      p ∈ Products.filterMax (some sy) l ↔ p ∈ l ∧ p.price ≤ Y := by
    intro l p
    simp [Products.filterMax, hY, JSNum.isNaN, JSNum.le, List.mem_filter]
  have hname : ∀ (name : Option String) (l : List Product) (p : Product),
      p ∈ Products.filterName name l → p ∈ l := by
    intro name l p hp
    unfold Products.filterName at hp
    split at hp
    · exact hp
    · split at hp
      · exact (List.mem_filter.mp hp).1
      · exact hp
  constructor
  · intro name p hp
    rw [mem_listed] at hp
    have h := hname _ _ _ hp
    rw [hmax, hmin] at h
    exact ⟨h.1.2, h.2⟩
  · intro p
    have hn : ∀ (l : List Product),
        p ∈ Products.filterName (some n) l ↔
          p ∈ l ∧ (n = "" ∨ includes (toLowerCase p.name) (trim (toLowerCase n)) = true) := by
      intro l
      unfold Products.filterName
      dsimp only
      split
      · rename_i h
        have h' : n ≠ "" := by simpa using h
        simp [List.mem_filter, h']
      · rename_i h
        have h' : n = "" := by simpa using h
        simp [h']
    have e1 : ∀ (l : List Product), Products.filterMin none l = l := fun _ => rfl
    have e2 : ∀ (l : List Product), Products.filterMax none l = l := fun _ => rfl
    have e3 : ∀ (l : List Product), Products.filterName none l = l := fun _ => rfl
    simp only [mem_listed, hn, hmin, hmax, e1, e2, e3]
    tauto

/-- C4 at the initial products with `minPrice=50`, `maxPrice=200` and `name=gaming`. -/
theorem list_filters_conjunctive_witness :
    parseFloat "50" = JSNum.fin 50 ∧ parseFloat "200" = JSNum.fin 200 ∧
    ((∀ name, ∀ p ∈ Products.listed codePointCompare products
        ⟨some "50", some "200", name, none, none⟩, (50 : ℚ) ≤ p.price ∧ p.price ≤ 200) ∧
      (∀ p, p ∈ Products.listed codePointCompare products
          ⟨some "50", some "200", some "gaming", none, none⟩ ↔
        (p ∈ Products.listed codePointCompare products ⟨some "50", none, none, none, none⟩ ∧
          p ∈ Products.listed codePointCompare products ⟨none, some "200", none, none, none⟩ ∧
          p ∈ Products.listed codePointCompare products
            ⟨none, none, some "gaming", none, none⟩))) :=
  ⟨by decide!, by decide!,
    list_filters_conjunctive codePointCompare products "50" "200" "gaming" 50 200 none none
      (by decide!) (by decide!)⟩

theorem perm_sorted_unique {α : Type} (r : α → α → Prop) :
    ∀ (l₁ l₂ : List α), l₁.Perm l₂ → l₁.Pairwise r → l₂.Pairwise r →
      (∀ a ∈ l₁, ∀ b ∈ l₁, r a b → r b a → a = b) → l₁ = l₂
  | [], l₂, hp, _, _, _ => hp.nil_eq
  | a :: l₁, [], hp, _, _, _ => absurd hp.symm.nil_eq.symm (List.cons_ne_nil _ _)
  | a :: l₁, b :: l₂, hp, h₁, h₂, hanti => by
    have hab : a = b := by
      have ha : a ∈ b :: l₂ := hp.subset (List.mem_cons_self _ _)
      have hb : b ∈ a :: l₁ := hp.symm.subset (List.mem_cons_self _ _)
      rcases List.mem_cons.mp ha with h | h
      · exact h
      · rcases List.mem_cons.mp hb with h' | h'
        · exact h'.symm
        · exact hanti a (List.mem_cons_self _ _) b hb
            (List.rel_of_pairwise_cons h₁ h') (List.rel_of_pairwise_cons h₂ h)
    subst hab
    have hp' : l₁.Perm l₂ := List.Perm.cons_inv hp
    rw [perm_sorted_unique r l₁ l₂ hp' h₁.of_cons h₂.of_cons
      (fun x hx y hy => hanti x (List.mem_cons_of_mem _ hx) y (List.mem_cons_of_mem _ hy))]

theorem sort_perm {α : Type} (c : α → α → JSNum) (xs : List α) : (sort c xs).Perm xs := by
  unfold sort
  exact List.perm_insertionSort _ _

theorem sort_sorted {α : Type} (c : α → α → JSNum)
    (htot : ∀ a b, (JSNum.fin 0).lt (c a b) = false ∨ (JSNum.fin 0).lt (c b a) = false)
    (htr : ∀ x y z, (JSNum.fin 0).lt (c x y) = false → (JSNum.fin 0).lt (c y z) = false →
      (JSNum.fin 0).lt (c x z) = false)
    (xs : List α) :
    (sort c xs).Pairwise (fun a b => (JSNum.fin 0).lt (c a b) = false) := by
  unfold sort
  haveI : IsTotal α (fun a b => (JSNum.fin 0).lt (c a b) = false) := ⟨htot⟩
  haveI : IsTrans α (fun a b => (JSNum.fin 0).lt (c a b) = false) := ⟨htr⟩
  exact List.sorted_insertionSort _ _

theorem filtered_sublist (q : Products.Query) (ps : List Product) :
    (Products.filterName q.name
      (Products.filterMax q.maxPrice (Products.filterMin q.minPrice ps))).Sublist ps := by
  have h1 : (Products.filterMin q.minPrice ps).Sublist ps := by
    unfold Products.filterMin
    split
    · exact List.Sublist.refl _
    · dsimp only
      split
      · exact List.filter_sublist _
      · exact List.Sublist.refl _
  have h2 : ∀ l : List Product, (Products.filterMax q.maxPrice l).Sublist l := by
    intro l
    unfold Products.filterMax
    split
    · exact List.Sublist.refl _
    · dsimp only
      split
      · exact List.filter_sublist _
      · exact List.Sublist.refl _
  have h3 : ∀ l : List Product, (Products.filterName q.name l).Sublist l := by
    intro l
    unfold Products.filterName
    split
    · exact List.Sublist.refl _
    · dsimp only
      split
      · exact List.filter_sublist _
      · exact List.Sublist.refl _
  exact (h3 _).trans ((h2 _).trans h1)

theorem name_desc_rel (lc : String → String → ℤ) (a b : Product) :
    ((JSNum.fin 0).lt (Products.comparator lc "name" (some "desc") a b) = false) ↔
      0 ≤ lc a.name b.name := by
  simp [Products.comparator, JSNum.lt, JSNum.neg]

theorem name_asc_rel (lc : String → String → ℤ) (a b : Product) :
    ((JSNum.fin 0).lt (Products.comparator lc "name" (some "asc") a b) = false) ↔
      lc a.name b.name ≤ 0 := by
  simp [Products.comparator, JSNum.lt]

/-- C5, amended: for a products collection in which `localeCompare` returns a value
other than 0 on the names of every two products, and every choice of filters, product list
with `sortBy=name` and `order=desc` is the reverse of product list with the same filters,
`sortBy=name` and `order=asc`.  The collation `localeCompare` is a parameter: it is taken
to be a consistent comparator (its sign flips when the arguments are swapped, and it is
transitive).  Names that are distinct strings need not compare unequal, and nothing is
assumed of the comparator on that account. -/
theorem name_desc_is_reverse_of_asc (lc : String → String → ℤ) (ps : List Product)
    (minPrice maxPrice name : Option String)
    (hanti : ∀ a b, 0 < lc a b ↔ lc b a < 0)
    (htrans : ∀ a b c, lc a b ≤ 0 → lc b c ≤ 0 → lc a c ≤ 0)
    (hdist : ps.Pairwise (fun p q => lc p.name q.name ≠ 0)) :
    Products.listed lc ps ⟨minPrice, maxPrice, name, some "name", some "desc"⟩ =
      (Products.listed lc ps ⟨minPrice, maxPrice, name, some "name", some "asc"⟩).reverse := by
  have hflip : ∀ a b, lc a b ≤ 0 → 0 ≤ lc b a := by
    intro a b h
    by_contra hc
    have := (hanti a b).mpr (not_le.mp hc)
    omega
  have hflip' : ∀ a b, 0 ≤ lc a b → lc b a ≤ 0 := by
    intro a b h
    by_contra hc
    have := (hanti b a).mp (not_le.mp hc)
    omega
  set L := Products.filterName name (Products.filterMax maxPrice (Products.filterMin minPrice ps))
    with hL
  have hsub : L.Sublist ps := filtered_sublist ⟨minPrice, maxPrice, name, none, none⟩ ps
  have hdesc : Products.listed lc ps ⟨minPrice, maxPrice, name, some "name", some "desc"⟩ =
      sort (Products.comparator lc "name" (some "desc")) L := by
    simp [Products.listed, Products.GET, Products.sortStep, hL]
  have hasc : Products.listed lc ps ⟨minPrice, maxPrice, name, some "name", some "asc"⟩ =
      sort (Products.comparator lc "name" (some "asc")) L := by
    simp [Products.listed, Products.GET, Products.sortStep, hL]
  rw [hdesc, hasc]
  apply perm_sorted_unique (fun a b : Product => 0 ≤ lc a.name b.name)
  · exact (sort_perm _ _).trans ((List.reverse_perm _).trans (sort_perm _ _)).symm
  · have := sort_sorted (Products.comparator lc "name" (some "desc"))
        (by
          intro a b
          simp only [name_desc_rel]
          rcases le_total 0 (lc a.name b.name) with h | h
          · exact Or.inl h
          · exact Or.inr (hflip _ _ h))
        (by
          intro x y z
          simp only [name_desc_rel]
          intro h1 h2
          exact hflip _ _ (htrans _ _ _ (hflip' _ _ h2) (hflip' _ _ h1))) L
    exact this.imp (fun {a b} h => (name_desc_rel lc a b).mp h)
  · rw [List.pairwise_reverse]
    have := sort_sorted (Products.comparator lc "name" (some "asc"))
        (by
          intro a b
          simp only [name_asc_rel]
          rcases le_total (lc a.name b.name) 0 with h | h
          · exact Or.inl h
          · exact Or.inr (hflip' _ _ h))
        (by
          intro x y z
          simp only [name_asc_rel]
          exact htrans _ _ _) L
    exact this.imp (fun {a b} h => hflip _ _ ((name_asc_rel lc a b).mp h))
  · intro a ha b hb hab hba
    have haL : a ∈ L := (sort_perm _ _).subset ha
    have hbL : b ∈ L := (sort_perm _ _).subset hb
    have h0 : lc a.name b.name = 0 := le_antisymm (hflip' _ _ hba) hab
    by_contra hne
    have hdL : L.Pairwise (fun p q => lc p.name q.name ≠ 0) := hdist.sublist hsub
    have hsymm : ∀ x y : Product, lc x.name y.name ≠ 0 → lc y.name x.name ≠ 0 := by
      intro x y h hc
      exact h (le_antisymm (hflip' _ _ hc.ge) (hflip _ _ hc.le))
    exact hdL.forall hsymm haL hbL hne h0

theorem codePointCompare_le (a b : String) : codePointCompare a b ≤ 0 ↔ a ≤ b := by
  unfold codePointCompare
  split_ifs with h1 h2
  · simp [h1.le]
  · simp [h2]
  · have : ¬ a ≤ b := fun h => (lt_or_eq_of_le h).elim h1 h2
    simp [this]

theorem codePointCompare_pos (a b : String) : 0 < codePointCompare a b ↔ b < a := by
  rw [← not_le, codePointCompare_le, not_le]

theorem codePointCompare_neg (a b : String) : codePointCompare a b < 0 ↔ a < b := by
  unfold codePointCompare
  split_ifs with h1 h2
  · simp [h1]
  · simp [h2]
  · simp [h1]

theorem codePointCompare_zero (a b : String) (h : codePointCompare a b = 0) : a = b := by
  have h1 : a ≤ b := (codePointCompare_le a b).mp h.le
  have h2 : ¬ a < b := fun hlt => by
    have := (codePointCompare_neg a b).mpr hlt
    omega
  exact le_antisymm h1 (not_lt.mp h2)

/-- C5, amended, at the initial products, price at least 50, with the code point
comparator. -/
theorem name_desc_is_reverse_of_asc_witness :
    (∀ a b, 0 < codePointCompare a b ↔ codePointCompare b a < 0) ∧
    (∀ a b c, codePointCompare a b ≤ 0 → codePointCompare b c ≤ 0 → codePointCompare a c ≤ 0) ∧
    products.Pairwise (fun p q => codePointCompare p.name q.name ≠ 0) ∧
    Products.listed codePointCompare products ⟨some "50", none, none, some "name", some "desc"⟩ =
      (Products.listed codePointCompare products
        ⟨some "50", none, none, some "name", some "asc"⟩).reverse :=
  have h1 : ∀ a b, 0 < codePointCompare a b ↔ codePointCompare b a < 0 := fun a b => by
    rw [codePointCompare_pos, codePointCompare_neg]
  have h2 : ∀ a b c, codePointCompare a b ≤ 0 → codePointCompare b c ≤ 0 →
      codePointCompare a c ≤ 0 := fun a b c => by
    simp only [codePointCompare_le]
    exact le_trans
  have h3 : products.Pairwise (fun p q => codePointCompare p.name q.name ≠ 0) :=
    (by decide : products.Pairwise (fun p q => p.name ≠ q.name)).imp
      (fun h hc => h (codePointCompare_zero _ _ hc))
  ⟨h1, h2, h3, name_desc_is_reverse_of_asc codePointCompare products (some "50") none none
    h1 h2 h3⟩

theorem digitChar_isDec (d : Nat) : isDec (digitChar d) = true := by
  unfold digitChar
  split <;> decide

theorem digitChar_val (d : Nat) (h : d < 10) : digitVal 10 (digitChar d) = some d := by
  interval_cases d <;> decide

theorem natDigits_isDec : ∀ (fuel n : Nat), ∀ c ∈ natDigits fuel n, isDec c = true
  | 0, _, c, hc => by simp [natDigits] at hc
  | fuel + 1, n, c, hc => by
    unfold natDigits at hc
    split at hc
    · rw [List.mem_singleton.mp hc]; exact digitChar_isDec _
    · rcases List.mem_append.mp hc with h | h
      · exact natDigits_isDec fuel _ c h
      · rw [List.mem_singleton.mp h]; exact digitChar_isDec _

theorem digitsVal_append (l : List Char) (c : Char) :
    digitsVal 10 (l ++ [c]) = digitsVal 10 l * 10 + (digitVal 10 c).getD 0 := by
  simp [digitsVal, List.foldl_append]

theorem natDigits_val : ∀ (fuel n : Nat), n < fuel → digitsVal 10 (natDigits fuel n) = n
  | 0, _, h => absurd h (Nat.not_lt_zero _)
  | fuel + 1, n, h => by
    unfold natDigits
    split
    · rename_i h10
      simp [digitsVal, digitChar_val n h10]
    · rename_i h10
      rw [digitsVal_append, natDigits_val fuel (n / 10) (by omega),
        digitChar_val _ (Nat.mod_lt _ (by decide))]
      simp only [Option.getD_some]
      omega

theorem natDigits_ne_nil : ∀ (fuel n : Nat), natDigits (fuel + 1) n ≠ []
  | fuel, n => by
    unfold natDigits
    split <;> simp

theorem isDec_facts (c : Char) (h : isDec c = true) :
    isWhiteSpace c = false ∧ c ≠ '-' ∧ c ≠ '+' ∧ c ≠ 'x' ∧ c ≠ 'X' ∧
      (digitVal 10 c).isSome = true := by
  have h1 : 48 ≤ c.toNat ∧ c.toNat ≤ 57 := by simpa [isDec] using h
  refine ⟨?_, ?_, ?_, ?_, ?_, ?_⟩
  · simp only [isWhiteSpace, Bool.or_eq_false_iff, beq_eq_false_iff_ne, ne_eq,
      Bool.and_eq_false_imp, decide_eq_true_eq, decide_eq_false_iff_not, not_le]
    omega
  · rintro rfl; revert h1; decide
  · rintro rfl; revert h1; decide
  · rintro rfl; revert h1; decide
  · rintro rfl; revert h1; decide
  · have : c.toNat - 48 < 10 := by omega
    simp [digitVal, h1, Option.filter, this]

theorem takeWhile_digits (ds : List Char) (h : ∀ c ∈ ds, isDec c = true) :
    ds.takeWhile (fun c => (digitVal 10 c).isSome) = ds := by
  rw [List.takeWhile_eq_self_iff]
  intro c hc
  exact (isDec_facts c (h c hc)).2.2.2.2.2

theorem parseIntStr_digits (ds : List Char) (hne : ds ≠ []) (h : ∀ c ∈ ds, isDec c = true) :
    parseIntStr (String.mk ds) = JSNum.fin (digitsVal 10 ds) ∧
    parseIntStr (String.mk ('-' :: ds)) = JSNum.fin (-(digitsVal 10 ds : ℚ)) := by
  cases ds with
  | nil => exact absurd rfl hne
  | cons d0 rest =>
    obtain ⟨hws, hm, hp, -, -, -⟩ := isDec_facts d0 (h d0 (List.mem_cons_self _ _))
    have htw := takeWhile_digits (d0 :: rest) h
    have hrest : ∀ r, rest = 'x' :: r → False := by
      rintro r rfl
      exact (isDec_facts 'x' (h 'x' (by simp))).2.2.2.1 rfl
    have hrest' : ∀ r, rest = 'X' :: r → False := by
      rintro r rfl
      exact (isDec_facts 'X' (h 'X' (by simp))).2.2.2.2.1 rfl
    have hsign : stripSign (d0 :: rest) = d0 :: rest := by
      unfold stripSign
      split
      · rename_i heq; injection heq with h1 h2; exact absurd h1 hm
      · rename_i heq; injection heq with h1 h2; exact absurd h1 hp
      · rfl
    have hradix : radixOf (d0 :: rest) = 10 := by
      unfold radixOf
      split
      · rename_i heq; injection heq with h1 h2; exact absurd h2 (fun e => hrest _ e)
      · rename_i heq; injection heq with h1 h2; exact absurd h2 (fun e => hrest' _ e)
      · rfl
    have hstrip : stripRadix (d0 :: rest) = d0 :: rest := by
      unfold stripRadix
      split
      · rename_i heq; injection heq with h1 h2; exact absurd h2 (fun e => hrest _ e)
      · rename_i heq; injection heq with h1 h2; exact absurd h2 (fun e => hrest' _ e)
      · rfl
    have hneg : (some d0 == some '-') = false := by simpa using hm
    have hd : isWhiteSpace '-' = false := by decide
    constructor
    · unfold parseIntStr
      simp only [List.dropWhile_cons, hws, Bool.false_eq_true, if_false, List.head?_cons,
        hsign, hradix, hstrip, htw, hneg, List.isEmpty_cons]
    · unfold parseIntStr
      have hs2 : stripSign ('-' :: d0 :: rest) = d0 :: rest := rfl
      simp only [List.dropWhile_cons, hd, Bool.false_eq_true, if_false, List.head?_cons,
        hs2, hradix, hstrip, htw, List.isEmpty_cons, beq_self_eq_true, if_true]

theorem parseIntStr_decimalText (m : ℤ) : parseIntStr (decimalText m) = JSNum.fin m := by
  have hv := natDigits_val (m.natAbs + 1) m.natAbs (Nat.lt_succ_self _)
  have hp := parseIntStr_digits (natDigits (m.natAbs + 1) m.natAbs) (natDigits_ne_nil _ _)
    (natDigits_isDec _ _)
  have hcast : ((m.natAbs : ℕ) : ℚ) = ((m.natAbs : ℤ) : ℚ) := (Int.cast_natCast _).symm
  unfold decimalText
  split
  · rename_i hneg
    rw [hp.2, hv, hcast, Int.ofNat_natAbs_of_nonpos hneg.le]
    simp
  · rename_i hneg
    rw [hp.1, hv, hcast, Int.natAbs_of_nonneg (not_lt.mp hneg)]

theorem parseIntNum_intCast (n : ℤ) (h21 : |n| < 10 ^ 21) : parseIntNum (n : ℚ) = n := by
  unfold parseIntNum
  by_cases h0 : n = 0
  · simp [h0]
  · have hq : (n : ℚ) ≠ 0 := by exact_mod_cast h0
    have habs : |(n : ℚ)| = ((|n| : ℤ) : ℚ) := by push_cast; rfl
    have h1 : (1 : ℤ) ≤ |n| := Int.one_le_abs h0
    have hlo : (1 : ℚ) / 10 ^ 6 ≤ |(n : ℚ)| := by
      rw [habs]
      have : (1 : ℚ) ≤ ((|n| : ℤ) : ℚ) := by exact_mod_cast h1
      have h6 : (1 : ℚ) / 10 ^ 6 ≤ 1 := by norm_num
      linarith
    have hhi : |(n : ℚ)| < 10 ^ 21 := by
      rw [habs]
      exact_mod_cast h21
    simp only [hq, if_false, hlo, hhi, and_self, if_true]
    rw [habs, Int.floor_intCast]
    split
    · rename_i hneg
      have : n < 0 := by exact_mod_cast hneg
      rw [abs_of_neg this]; ring
    · rename_i hneg
      have : ¬ n < 0 := fun h => hneg (by exact_mod_cast h)
      rw [abs_of_nonneg (not_lt.mp this)]

theorem strictEq_fin_false (i : JSNum) (q : ℚ) (h : i ≠ JSNum.fin q) :
    i.strictEq (JSNum.fin q) = false := by
  cases i <;> simp_all [JSNum.strictEq]

/-- C6 as stated fails: no user has the id 0, and user delete with `id: 0` in the body is
answered with 400 (`!id` holds for 0), not with 404. -/
theorem users_DELETE_id_zero_is_400 :
    (∀ u ∈ users, u.id ≠ JSNum.fin 0) ∧
    (Users.DELETE users (mkObj [("id", JSON.num 0)])).1.status = 400 ∧
    (Users.DELETE users (mkObj [("id", JSON.num 0)])).1.status ≠ 404 := by
  decide!

/-- C6, amended: for an integer id of magnitude at most `2^53`, the integers that a number
of the code holds exactly, that no record has: product delete with the decimal text of the
id in the path is answered with 404; user delete with the id in the body is answered with
404 when the id is not 0, and with 400 when the id is 0; the collection is unchanged in
each case.  Beyond that range the number that the handler reads is not the integer that
the request gives, and nothing is stated. -/
theorem delete_absent_id (us : List User) (ps : List Product) (body : JSON) (n m : ℤ)
    (hid : body.prop "id" = some (JSON.num n))
    (hus : ∀ u ∈ us, u.id ≠ JSNum.fin n) (hps : ∀ p ∈ ps, p.id ≠ JSNum.fin m) :
    (n ≠ 0 → |n| ≤ 2 ^ 53 → Users.DELETE us body = (Response.fail 404, us)) ∧
    (n = 0 → Users.DELETE us body = (Response.fail 400, us)) ∧
    (|m| ≤ 2 ^ 53 → ProductsById.DELETE ps (decimalText m) = (Response.fail 404, ps)) := by
  have hnull : body ≠ JSON.null := by
    rintro rfl
    simp [JSON.prop, JSON.props, JSON.null] at hid
  refine ⟨?_, ?_, ?_⟩
  · intro h0 h53
    have h21 : |n| < 10 ^ 21 := lt_of_le_of_lt h53 (by norm_num)
    have hq : (n : ℚ) ≠ 0 := by exact_mod_cast h0
    have hnone : us.findIdx? (fun u => u.id.strictEq (JSNum.fin ((n : ℤ) : ℚ))) = none := by
      rw [List.findIdx?_eq_none_iff]
      intro u hu
      exact strictEq_fin_false _ _ (hus u hu)
    unfold Users.DELETE
    split
    · exact absurd rfl hnull
    · simp [hid, truthy?, JSON.truthy, hq, JSON.parseInt, parseIntNum_intCast n h21, hnone]
  · intro h0
    unfold Users.DELETE
    split
    · rfl
    · simp [hid, truthy?, JSON.truthy, h0]
  · intro _
    have hnone : ps.findIdx? (fun p => p.id.strictEq (JSNum.fin (m : ℚ))) = none := by
      rw [List.findIdx?_eq_none_iff]
      intro p hp
      exact strictEq_fin_false _ _ (hps p hp)
    unfold ProductsById.DELETE
    simp [parseIntStr_decimalText, JSNum.isNaN, hnone]

/-- C6, amended, at the initial arrays and the id 9999. -/
theorem delete_absent_id_witness :
    (mkObj [("id", JSON.num ((9999 : ℤ) : ℚ))]).prop "id" = some (JSON.num ((9999 : ℤ) : ℚ)) ∧
    (∀ u ∈ users, u.id ≠ JSNum.fin ((9999 : ℤ) : ℚ)) ∧
    (∀ p ∈ ProductsById.products, p.id ≠ JSNum.fin ((9999 : ℤ) : ℚ)) ∧
    ((9999 : ℤ) ≠ 0 ∧ |(9999 : ℤ)| ≤ 2 ^ 53) ∧
    Users.DELETE users (mkObj [("id", JSON.num ((9999 : ℤ) : ℚ))]) = (Response.fail 404, users) ∧
    ProductsById.DELETE ProductsById.products (decimalText 9999) =
      (Response.fail 404, ProductsById.products) :=
  ⟨rfl, by decide!, by decide!, ⟨by decide, by decide⟩,
    (delete_absent_id users ProductsById.products (mkObj [("id", JSON.num ((9999 : ℤ) : ℚ))])
      9999 9999 rfl (by decide!) (by decide!)).1 (by decide) (by decide),
    (delete_absent_id users ProductsById.products (mkObj [("id", JSON.num ((9999 : ℤ) : ℚ))])
      9999 9999 rfl (by decide!) (by decide!)).2.2 (by decide)⟩

/-- Beyond the range of C6: no user has the id `10^21`, a number that the code holds
exactly; user delete with that id in the body looks up `parseInt(1e21)`, which is 1 (the
first digit of `1e+21`), answers 200 and removes user 1. -/
theorem users_DELETE_id_1e21_removes_user_1 :
    (∀ u ∈ users, u.id ≠ JSNum.fin (10 ^ 21)) ∧
    (Users.DELETE users (mkObj [("id", JSON.num (10 ^ 21))])).1.status = 200 ∧
    (Users.DELETE users (mkObj [("id", JSON.num (10 ^ 21))])).2.map (fun u => u.id) =
      [JSNum.fin 2, JSNum.fin 3] := by
  decide!

theorem findIdx?_some_get {α : Type} (xs : List α) (p : α → Bool) (i : Nat) (a : α)
    (h : xs.findIdx? p = some i) (ha : xs.get? i = some a) : p a = true := by
  have := List.findIdx?_of_eq_some h
  rw [List.get?_eq_getElem?] at ha
  rw [ha] at this
  exact this

/-- C7: a user update that succeeds (status 200) replaces the first record whose id is
the requested one by a record with the same id in which every field that the body does not
name keeps its value; the length of the collection and every other position are unchanged.
In particular the body with `id: 1` and `age: 31` changes only the age of user 1. -/
theorem users_PUT_frame (us : List User) (body : JSON) :
    ((Users.PUT us body).1.status = 200 →
      ∃ v i old new, body.prop "id" = some v ∧ us.get? i = some old ∧
        old.id.strictEq v.parseInt = true ∧
        (Users.PUT us body).1.payload = some new ∧
        (Users.PUT us body).2 = us.set i new ∧
        new.id = old.id ∧
        (body.prop "name" = none → new.name = old.name) ∧
        (body.prop "email" = none → new.email = old.email) ∧
        (body.prop "age" = none → new.age = old.age) ∧
        (Users.PUT us body).2.length = us.length ∧
        (Users.PUT us body).2.get? i = some new ∧
        ∀ j, j ≠ i → (Users.PUT us body).2.get? j = us.get? j) ∧
    Users.PUT users (mkObj [("id", JSON.num 1), ("age", JSON.num 31)]) =
      (⟨200, some ⟨JSNum.fin 1, "Juan Pérez", Prim.str "juan@example.com", 31⟩⟩,
        [⟨JSNum.fin 1, "Juan Pérez", Prim.str "juan@example.com", 31⟩,
          ⟨JSNum.fin 2, "María González", Prim.str "maria@example.com", 30⟩,
          ⟨JSNum.fin 3, "Carlos López", Prim.str "carlos@example.com", 22⟩]) := by
  refine ⟨?_, by decide!⟩
  intro h200
  rcases users_PUT_cases us body with ⟨st, hst, -, heq⟩ |
    ⟨v, i, old, email, age, name, hv, -, hi, hold, -, he, ha, hn, heq⟩
  · rw [heq] at h200; exact absurd h200 hst
  · have hlt : i < us.length := by
      rw [List.get?_eq_getElem?] at hold
      exact (List.getElem?_eq_some_iff.mp hold).1
    rw [heq]
    refine ⟨v, i, old, _, hv, hold,
      findIdx?_some_get us (fun u => u.id.strictEq v.parseInt) i old hi hold, rfl, rfl, rfl,
      ?_, ?_, ?_, ?_, ?_, ?_⟩
    · intro h; rw [h] at hn
      simp only [Users.checkName] at hn
      injection hn with hn; subst hn; rfl
    · intro h; rw [h] at he
      simp only [Users.checkEmail] at he
      injection he with he; subst he; rfl
    · intro h; rw [h] at ha
      simp only [Users.checkAge] at ha
      injection ha with ha; subst ha; rfl
    · simp
    · simp [List.get?_eq_getElem?, List.getElem?_set, hlt]
    · intro j hj
      simp [List.get?_eq_getElem?, List.getElem?_set, Ne.symm hj]

/-- C7 at the initial users and a body that renames user 2. -/
theorem users_PUT_frame_witness :
    (Users.PUT users (mkObj [("id", JSON.num 2), ("name", JSON.str " Maria ")])).1.status = 200 ∧
    ∃ v i old new,
      (mkObj [("id", JSON.num 2), ("name", JSON.str " Maria ")]).prop "id" = some v ∧
      users.get? i = some old ∧ old.id.strictEq v.parseInt = true ∧
      (Users.PUT users (mkObj [("id", JSON.num 2), ("name", JSON.str " Maria ")])).1.payload =
        some new ∧
      (Users.PUT users (mkObj [("id", JSON.num 2), ("name", JSON.str " Maria ")])).2 =
        users.set i new ∧
      new.id = old.id ∧
      ((mkObj [("id", JSON.num 2), ("name", JSON.str " Maria ")]).prop "name" = none →
        new.name = old.name) ∧
      ((mkObj [("id", JSON.num 2), ("name", JSON.str " Maria ")]).prop "email" = none →
        new.email = old.email) ∧
      ((mkObj [("id", JSON.num 2), ("name", JSON.str " Maria ")]).prop "age" = none →
        new.age = old.age) ∧
      (Users.PUT users (mkObj [("id", JSON.num 2), ("name", JSON.str " Maria ")])).2.length =
        users.length ∧
      (Users.PUT users (mkObj [("id", JSON.num 2), ("name", JSON.str " Maria ")])).2.get? i =
        some new ∧
      ∀ j, j ≠ i →
        (Users.PUT users (mkObj [("id", JSON.num 2), ("name", JSON.str " Maria ")])).2.get? j =
          users.get? j :=
  ⟨by decide!,
    (users_PUT_frame users (mkObj [("id", JSON.num 2), ("name", JSON.str " Maria ")])).1
      (by decide!)⟩

/-- C8 as stated fails: a body with an id that no user has and the field `role` is answered
with 404, not with 400: the lookup of the user comes before the check of the field names. -/
theorem users_PUT_unknown_field_unknown_id_is_404 :
    (mkObj [("id", JSON.num 999), ("role", JSON.str "admin")]).prop "id" =
      some (JSON.num 999) ∧
    "role" ∈ (mkObj [("id", JSON.num 999), ("role", JSON.str "admin")]).restKeys "id" ∧
    "role" ∉ Users.allowedFields ∧
    (Users.PUT users (mkObj [("id", JSON.num 999), ("role", JSON.str "admin")])).1.status = 404 :=
  ⟨rfl, by decide, by decide, by decide!⟩

/-- C8, amended: a user update whose body includes an id and a field name outside
`name`, `email`, `age` leaves the collection unchanged; it is answered with 400 when the id
is falsy or `parseInt(id)` is the id of a user, and with 404 when the id is truthy and
`parseInt(id)` is the id of no user.  The lookup is by `parseInt(id)`, the integer that the
text of the id begins with, not by the id: the ids 1.5 and `"1abc"` find user 1. -/
theorem users_PUT_unknown_field (us : List User) (body v : JSON) (k : String)
    (hid : body.prop "id" = some v) (hk : k ∈ body.restKeys "id")
    (hbad : k ∉ Users.allowedFields) :
    (Users.PUT us body).2 = us ∧
    ((v.truthy = false ∨ ∃ u ∈ us, u.id.strictEq v.parseInt = true) →
      (Users.PUT us body).1.status = 400) ∧
    ((v.truthy = true ∧ ∀ u ∈ us, u.id.strictEq v.parseInt = false) →
      (Users.PUT us body).1.status = 404) := by
  have hany : (body.restKeys "id").any (fun field => !Users.allowedFields.contains field)
      = true := by
    rw [List.any_eq_true]
    exact ⟨k, hk, by simpa using hbad⟩
  have hnull : body ≠ JSON.null := by
    rintro rfl
    simp [JSON.prop, JSON.props, JSON.null] at hid
  unfold Users.PUT
  split
  · exact absurd rfl hnull
  · simp only [hid, truthy?, Option.map_some', Option.getD_some]
    cases hvt : v.truthy
    · simp [Response.fail]
    · rcases hfi : us.findIdx? (fun u => u.id.strictEq v.parseInt) with _ | i
      · have hno := List.findIdx?_eq_none_iff.mp hfi
        simp only [hfi, Bool.not_true, Bool.false_eq_true, if_false, Response.fail, true_and]
        refine ⟨?_, ?_⟩
        · rintro (h | ⟨u, hu, h⟩)
          · cases h
          · rw [hno u hu] at h; cases h
        · intro _; trivial
      · have hex : ∃ u ∈ us, u.id.strictEq v.parseInt = true := by
          have hsome : (us.findIdx? (fun u => u.id.strictEq v.parseInt)).isSome = true := by
            rw [hfi]; rfl
          rw [List.findIdx?_isSome, List.any_eq_true] at hsome
          exact hsome
        simp only [hfi, Bool.not_true, Bool.false_eq_true, if_false, hany, if_true,
          Response.fail, true_and]
        refine ⟨fun _ => trivial, ?_⟩
        intro hno
        obtain ⟨u, hu, h⟩ := hex
        rw [hno u hu] at h; cases h

theorem isWhiteSpace_toLower (c : Char) : isWhiteSpace c.toLower = isWhiteSpace c := by
  unfold Char.toLower
  dsimp only
  split
  · rename_i h
    have hc : c = Char.ofNat c.toNat := (Char.ofNat_toNat c).symm
    obtain ⟨h1, h2⟩ := h
    generalize c.toNat = n at hc h1 h2
    subst hc
    interval_cases n <;> decide
  · rfl

theorem trim_toLowerCase (s : String) : trim (toLowerCase s) = toLowerCase (trim s) := by
  have hcomp : (isWhiteSpace ∘ Char.toLower) = isWhiteSpace := by
    funext c
    exact isWhiteSpace_toLower c
  unfold trim toLowerCase
  simp only [List.rdropWhile, List.dropWhile_map, ← List.map_reverse, hcomp]

theorem products_POSTWith_eq (lower : String → String) (ps : List Product) (body : JSON)
    (n : String) (p : ℚ)
    (hn : body.prop "name" = some (JSON.str n)) (hn0 : n ≠ "")
    (hp : body.prop "price" = some (JSON.num p)) :
    Products.POSTWith lower ps body =
      if p ≤ 0 then (Response.fail 400, ps)
      else if ps.any (fun product => lower product.name == trim (lower n)) then
        (Response.fail 409, ps)
      else
        (⟨201, some ⟨(mathMax (ps.map (fun x => x.id))).add (JSNum.fin 1), trim n, p⟩⟩,
          ps ++ [⟨(mathMax (ps.map (fun x => x.id))).add (JSNum.fin 1), trim n, p⟩]) := by
  unfold Products.POSTWith
  split
  · simp [JSON.prop, JSON.props] at hn
  · simp [hn, hp, truthy?, JSON.truthy, hn0]

theorem products_POST_eq (ps : List Product) (body : JSON) (n : String) (p : ℚ)
    (hn : body.prop "name" = some (JSON.str n)) (hn0 : n ≠ "")
    (hp : body.prop "price" = some (JSON.num p)) :
    Products.POST ps body =
      if p ≤ 0 then (Response.fail 400, ps)
      else if ps.any (fun product => toLowerCase product.name == trim (toLowerCase n)) then
        (Response.fail 409, ps)
      else
        (⟨201, some ⟨(mathMax (ps.map (fun x => x.id))).add (JSNum.fin 1), trim n, p⟩⟩,
          ps ++ [⟨(mathMax (ps.map (fun x => x.id))).add (JSNum.fin 1), trim n, p⟩]) :=
  products_POSTWith_eq toLowerCase ps body n p hn hn0 hp

/-- C10, amended: the decision table of product create on a non-empty collection whose
ids are numbers (none is `NaN`).  The method `toLowerCase` of the host is the parameter
`lower`; two names are equal ignoring case when `lower` gives them the same form.  What is
used of the method is that it commutes with `trim`, as `toLowerCase` does: white space has
no case and only white space is lowercased to white space.  400 when the name is missing
or falsy (the empty string included) or the price is missing; 400 when the name is not a
string or the price is not a number; for a non-empty string name and a number price: 400
when the price is not positive, 409 when the trimmed name equals the name of a product
ignoring case, and otherwise 201 with the collection extended at its end by the record
with the largest id plus one, the trimmed name and the price.  In every case other than
201 the collection is unchanged. -/
theorem products_POST_table (lower : String → String) (ps : List Product) (body : JSON)
    (hcomm : ∀ s, trim (lower s) = lower (trim s)) (hne : ps ≠ [])
    (hid : ∀ p ∈ ps, p.id.isNaN = false) :
    ((truthy? (body.prop "name") = false ∨ body.prop "price" = none) →
      Products.POSTWith lower ps body = (Response.fail 400, ps)) ∧
    (((∀ n, body.prop "name" ≠ some (JSON.str n)) ∨
        (∀ p, body.prop "price" ≠ some (JSON.num p))) →
      Products.POSTWith lower ps body = (Response.fail 400, ps)) ∧
    (∀ n p, body.prop "name" = some (JSON.str n) → n ≠ "" →
      body.prop "price" = some (JSON.num p) →
      (p ≤ 0 → Products.POSTWith lower ps body = (Response.fail 400, ps)) ∧
      (0 < p → (∃ x ∈ ps, lower (trim n) = lower x.name) →
        Products.POSTWith lower ps body = (Response.fail 409, ps)) ∧
      (0 < p → (∀ x ∈ ps, lower (trim n) ≠ lower x.name) →
        ∃ m, (∃ x ∈ ps, x.id = m) ∧ (∀ x ∈ ps, x.id.le m = true) ∧
          Products.POSTWith lower ps body =
            (⟨201, some ⟨m.add (JSNum.fin 1), trim n, p⟩⟩,
              ps ++ [⟨m.add (JSNum.fin 1), trim n, p⟩]))) ∧
    ((Products.POSTWith lower ps body).1.status ≠ 201 →
      (Products.POSTWith lower ps body).2 = ps) := by
  refine ⟨?_, ?_, ?_, ?_⟩
  · intro h
    unfold Products.POSTWith
    split
    · rfl
    · dsimp only
      rw [if_pos]
      rcases h with h | h
      · simp [h]
      · simp [h]
  · intro h
    rcases products_POSTWith_cases lower ps body with
      ⟨st, hst, -, heq⟩ | ⟨n, p, hn, hp, -, -, -, -⟩
    · unfold Products.POSTWith
      split
      · rfl
      · dsimp only
        split
        · rfl
        · split
          · rename_i n p hn hp
            rcases h with h | h
            · exact absurd hn (h n)
            · exact absurd hp (h p)
          · rfl
    · rcases h with h | h
      · exact absurd hn (h n)
      · exact absurd hp (h p)
  · intro n p hn hn0 hp
    have heq := products_POSTWith_eq lower ps body n p hn hn0 hp
    refine ⟨?_, ?_, ?_⟩
    · intro hp0
      rw [heq, if_pos hp0]
    · rintro hp0 ⟨x, hx, hxn⟩
      rw [heq, if_neg (not_le.mpr hp0), if_pos]
      rw [List.any_eq_true]
      exact ⟨x, hx, by rw [hcomm, beq_iff_eq]; exact hxn.symm⟩
    · intro hp0 hno
      obtain ⟨hmem, hub⟩ := mathMax_spec (ps.map (fun x => x.id))
        (by simpa using hne) (by simpa using hid)
      refine ⟨mathMax (ps.map (fun x => x.id)), ?_, ?_, ?_⟩
      · obtain ⟨x, hx, hxm⟩ := List.mem_map.mp hmem
        exact ⟨x, hx, hxm⟩
      · intro x hx
        exact hub _ (List.mem_map.mpr ⟨x, hx, rfl⟩)
      · rw [heq, if_neg (not_le.mpr hp0), if_neg]
        rw [List.any_eq_true]
        rintro ⟨x, hx, hxn⟩
        rw [hcomm, beq_iff_eq] at hxn
        exact hno x hx hxn.symm
  · intro h
    rcases products_POSTWith_cases lower ps body with
      ⟨st, hst, -, heq⟩ | ⟨n, p, -, -, -, -, -, heq⟩
    · rw [heq]
    · rw [heq] at h; exact absurd rfl h

/-- C8, amended, at the initial users: the id of user 1 and the field `role`; the ids 1.5
and `"1abc"`, which no user has and of which `parseInt` is 1, are answered with 400 too. -/
theorem users_PUT_unknown_field_witness :
    (mkObj [("id", JSON.num 1), ("role", JSON.str "admin")]).prop "id" = some (JSON.num 1) ∧
    "role" ∈ (mkObj [("id", JSON.num 1), ("role", JSON.str "admin")]).restKeys "id" ∧
    "role" ∉ Users.allowedFields ∧
    (Users.PUT users (mkObj [("id", JSON.num 1), ("role", JSON.str "admin")])).2 = users ∧
    (Users.PUT users (mkObj [("id", JSON.num 1), ("role", JSON.str "admin")])).1.status = 400 ∧
    (Users.PUT users (mkObj [("id", JSON.num (3 / 2)), ("role", JSON.str "admin")])).1.status
      = 400 ∧
    (Users.PUT users (mkObj [("id", JSON.str "1abc"), ("role", JSON.str "admin")])).1.status
      = 400 :=
  ⟨rfl, by decide, by decide,
    (users_PUT_unknown_field users (mkObj [("id", JSON.num 1), ("role", JSON.str "admin")])
      (JSON.num 1) "role" rfl (by decide) (by decide)).1,
    (users_PUT_unknown_field users (mkObj [("id", JSON.num 1), ("role", JSON.str "admin")])
      (JSON.num 1) "role" rfl (by decide) (by decide)).2.1 (Or.inr (by decide!)),
    (users_PUT_unknown_field users (mkObj [("id", JSON.num (3 / 2)), ("role", JSON.str "admin")])
      (JSON.num (3 / 2)) "role" rfl (by decide) (by decide)).2.1 (Or.inr (by decide!)),
    (users_PUT_unknown_field users (mkObj [("id", JSON.str "1abc"), ("role", JSON.str "admin")])
      (JSON.str "1abc") "role" rfl (by decide) (by decide)).2.1 (Or.inr (by decide!))⟩

/-- User create accepts every submission with a non-empty string name, an email that
matches the pattern and that no user has, and an integer age from 1 to 120. -/
theorem users_POST_valid (us : List User) (body : JSON) (n e : String) (a : ℤ)
    (hn : body.prop "name" = some (JSON.str n)) (hn0 : n ≠ "")
    (he : body.prop "email" = some (JSON.str e)) (hre : emailRegexTest e = true)
    (ha : body.prop "age" = some (JSON.num a)) (h1 : 1 ≤ a) (h120 : a ≤ 120)
    (hdup : ∀ u ∈ us, u.email ≠ Prim.str e) :
    Users.POST us body =
      (⟨201, some ⟨(mathMax (us.map (fun u => u.id))).add (JSNum.fin 1), trim n,
          Prim.str (toLowerCase (trim e)), a⟩⟩,
        us ++ [⟨(mathMax (us.map (fun u => u.id))).add (JSNum.fin 1), trim n,
          Prim.str (toLowerCase (trim e)), a⟩]) := by
  have he0 : e ≠ "" := by
    rintro rfl
    revert hre
    decide
  have ha0 : (a : ℚ) ≠ 0 := by
    have : a ≠ 0 := by omega
    exact_mod_cast this
  have hlo : ¬ ((a : ℚ) < 0) := by
    have : (0 : ℚ) ≤ a := by exact_mod_cast (by omega : (0 : ℤ) ≤ a)
    exact not_lt.mpr this
  have hhi : ¬ ((a : ℚ) > 120) := by
    have : (a : ℚ) ≤ 120 := by exact_mod_cast h120
    exact not_lt.mpr this
  have hany : us.any (fun user => Users.emailEq user.email (JSON.str e)) = false := by
    rw [List.any_eq_false]
    intro u hu
    simpa [Users.emailEq] using hdup u hu
  have hpi : parseIntNum (a : ℚ) = a := parseIntNum_intCast a (by
    have : |a| ≤ 120 := abs_le.mpr ⟨by omega, h120⟩
    omega)
  unfold Users.POST
  split
  · simp [JSON.prop, JSON.props] at hn
  · simp [hn, he, ha, truthy?, JSON.truthy, hn0, he0, ha0, hre, hlo, hhi, hany, hpi]

/-- C9 (the code at the failing input): a create with a valid name, a valid email that no
user has and the age 0 is answered with 400 and stores nothing, because `!age` holds for
0.  The same body with the age 1 is answered with 201, and user update accepts the
age 0. -/
theorem users_POST_rejects_age_zero :
    emailRegexTest "ana@example.com" = true ∧
    (∀ u ∈ users, u.email ≠ Prim.str "ana@example.com") ∧
    Users.POST users (mkObj [("name", JSON.str "Ana"), ("email", JSON.str "ana@example.com"),
      ("age", JSON.num 0)]) = (Response.fail 400, users) ∧
    (Users.POST users (mkObj [("name", JSON.str "Ana"), ("email", JSON.str "ana@example.com"),
      ("age", JSON.num 1)])).1.status = 201 ∧
    (Users.PUT users (mkObj [("id", JSON.num 1), ("age", JSON.num 0)])).1.status = 200 := by
  decide!

/-- C10 as stated fails: the body has the name `""`, a string that no product has, and
the price 5, a positive number; product create answers 400, not 201. -/
theorem products_POST_empty_name_is_400 :
    (mkObj [("name", JSON.str ""), ("price", JSON.num 5)]).prop "name" = some (JSON.str "") ∧
    (mkObj [("name", JSON.str ""), ("price", JSON.num 5)]).prop "price" = some (JSON.num 5) ∧
    (∀ x ∈ products, toLowerCase (trim "") ≠ toLowerCase x.name) ∧
    Products.POST products (mkObj [("name", JSON.str ""), ("price", JSON.num 5)]) =
      (Response.fail 400, products) :=
  ⟨rfl, rfl, by decide, by decide!⟩

/-- C10, amended, at the initial products, a valid body and `toLowerCase` on `A`..`Z`:
the product gets the largest id plus one. -/
theorem products_POST_table_witness :
    (∀ s, trim (toLowerCase s) = toLowerCase (trim s)) ∧
    products ≠ [] ∧ (∀ p ∈ products, p.id.isNaN = false) ∧
    tabletBody.prop "name" = some (JSON.str "Tablet") ∧
    tabletBody.prop "price" = some (JSON.num 99) ∧
    ∃ m, (∃ x ∈ products, x.id = m) ∧ (∀ x ∈ products, x.id.le m = true) ∧
      Products.POSTWith toLowerCase products tabletBody =
        (⟨201, some ⟨m.add (JSNum.fin 1), trim "Tablet", 99⟩⟩,
          products ++ [⟨m.add (JSNum.fin 1), trim "Tablet", 99⟩]) :=
  ⟨trim_toLowerCase, by decide, by decide, rfl, rfl,
    ((products_POST_table toLowerCase products tabletBody trim_toLowerCase (by decide)
      (by decide)).2.2.1 "Tablet" 99 rfl (by decide) rfl).2.2 (by norm_num) (by decide)⟩

theorem parseIntStr_nan_or_int (s : String) :
    parseIntStr s = JSNum.nan ∨ ∃ n : ℤ, parseIntStr s = JSNum.fin n := by
  unfold parseIntStr
  dsimp only
  split
  · exact Or.inl rfl
  · right
    split
    · exact ⟨-(digitsVal _ _ : ℕ), by push_cast; rfl⟩
    · exact ⟨(digitsVal _ _ : ℕ), by push_cast; rfl⟩

theorem decimalText_ne_1abc (m : ℤ) : decimalText m ≠ "1abc" := by
  intro h
  have hd : (decimalText m).data = ['1', 'a', 'b', 'c'] := by rw [h]
  have hall := natDigits_isDec (m.natAbs + 1) m.natAbs
  unfold decimalText at hd
  dsimp only at hd
  split at hd
  · injection hd with h1 h2
    exact absurd h1 (by decide)
  · have := hall 'a' (by rw [hd]; simp)
    revert this
    decide

/-- C11 as stated fails: `"1abc"` is not the decimal text of an integer, and product get
by id answers it with 200 and the product 1, because `parseInt` reads the leading `1`. -/
theorem product_GET_by_id_accepts_1abc :
    (∀ m : ℤ, decimalText m ≠ "1abc") ∧
    ProductsById.GET ProductsById.products "1abc" =
      ⟨200, some ⟨JSNum.fin 1, "Laptop", 1200⟩⟩ :=
  ⟨decimalText_ne_1abc, by decide!⟩

/-- C11, amended: product get by id classifies every path parameter by what `parseInt`
reads from it, which is `NaN` or an integer: 400 when it reads `NaN`, 404 when it reads
an integer that no product has as id, and otherwise 200 with a product of the collection
whose id equals that integer.  From the decimal text of an integer `parseInt` reads that
integer. -/
theorem product_GET_by_id_classifies (ps : List Product) (s : String) :
    (parseIntStr s = JSNum.nan ∨ ∃ n : ℤ, parseIntStr s = JSNum.fin n) ∧
    (parseIntStr s = JSNum.nan → ProductsById.GET ps s = Response.fail 400) ∧
    (∀ n : ℤ, parseIntStr s = JSNum.fin n → (∀ p ∈ ps, p.id ≠ JSNum.fin n) →
      ProductsById.GET ps s = Response.fail 404) ∧
    (∀ n : ℤ, parseIntStr s = JSNum.fin n → (∃ p ∈ ps, p.id = JSNum.fin n) →
      ∃ p ∈ ps, p.id = JSNum.fin n ∧ ProductsById.GET ps s = ⟨200, some p⟩) ∧
    (∀ m : ℤ, parseIntStr (decimalText m) = JSNum.fin m) := by
  refine ⟨parseIntStr_nan_or_int s, ?_, ?_, ?_, parseIntStr_decimalText⟩
  · intro h
    simp [ProductsById.GET, h, JSNum.isNaN]
  · intro n h hno
    have hnone : ps.find? (fun p => p.id.strictEq (JSNum.fin (n : ℚ))) = none := by
      rw [List.find?_eq_none]
      intro p hp
      simp [strictEq_fin_false _ _ (hno p hp)]
    simp [ProductsById.GET, h, JSNum.isNaN, hnone]
  · rintro n h ⟨p, hp, hpid⟩
    have hsome : (ps.find? (fun p => p.id.strictEq (JSNum.fin (n : ℚ)))).isSome = true := by
      rw [List.find?_isSome]
      exact ⟨p, hp, by rw [hpid]; simp [JSNum.strictEq]⟩
    obtain ⟨q, hq⟩ := Option.isSome_iff_exists.mp hsome
    have hqid : q.id = JSNum.fin (n : ℚ) := by
      have := List.find?_some hq
      cases hqi : q.id <;> simp_all [JSNum.strictEq]
    exact ⟨q, List.mem_of_find?_eq_some hq, hqid,
      by simp [ProductsById.GET, h, JSNum.isNaN, hq]⟩

/-- C11, amended, at the initial array of the by-id route: `"2"` is answered with the
product 2, `"7"` with 404 and `"abc"` with 400. -/
theorem product_GET_by_id_classifies_witness :
    parseIntStr "2" = JSNum.fin ((2 : ℤ) : ℚ) ∧ parseIntStr "7" = JSNum.fin ((7 : ℤ) : ℚ) ∧
    parseIntStr "abc" = JSNum.nan ∧
    (∃ p ∈ ProductsById.products, p.id = JSNum.fin ((2 : ℤ) : ℚ)) ∧
    (∀ p ∈ ProductsById.products, p.id ≠ JSNum.fin ((7 : ℤ) : ℚ)) ∧
    (∃ p ∈ ProductsById.products, p.id = JSNum.fin ((2 : ℤ) : ℚ) ∧
      ProductsById.GET ProductsById.products "2" = ⟨200, some p⟩) ∧
    ProductsById.GET ProductsById.products "7" = Response.fail 404 ∧
    ProductsById.GET ProductsById.products "abc" = Response.fail 400 :=
  ⟨by decide!, by decide!, by decide!, by decide!, by decide!,
    (product_GET_by_id_classifies ProductsById.products "2").2.2.2.1 2 (by decide!)
      (by decide!),
    (product_GET_by_id_classifies ProductsById.products "7").2.2.1 7 (by decide!)
      (by decide!),
    (product_GET_by_id_classifies ProductsById.products "abc").2.1 (by decide!)⟩

/-- C12 (the code at the failing input): the emails of the initial users are pairwise
distinct; the update of user 1 with the email `"MARIA@example.com"` is compared as it is
with the stored emails, is answered with 200 and not with 409, and leaves users 1 and 2
with the same email `"maria@example.com"`. -/
theorem users_PUT_accepts_case_variant_email :
    (users.map (fun u => u.email)).Nodup ∧
    (Users.PUT users (mkObj [("id", JSON.num 1),
      ("email", JSON.str "MARIA@example.com")])).1.status = 200 ∧
    (Users.PUT users (mkObj [("id", JSON.num 1),
      ("email", JSON.str "MARIA@example.com")])).2.map (fun u => u.email) =
      [Prim.str "maria@example.com", Prim.str "maria@example.com",
        Prim.str "carlos@example.com"] ∧
    (Users.PUT users (mkObj [("id", JSON.num 1),
      ("email", JSON.str "juan@example.com")])).1.status = 200 := by
  decide!

/-- C14 (the code at the failing inputs): every initial user is well formed.  A create
with the name `"   "` is answered with 201 and stores the empty name; an update with the
age 30.5 is answered with 200 and stores that age.  The sibling handlers do validate:
update rejects the name `"   "`, and create stores the age 30.5 as 30. -/
theorem users_ill_formed_records_stored :
    (∀ u ∈ users, wellFormed u) ∧
    Users.POST users (mkObj [("name", JSON.str "   "), ("email", JSON.str "ana@example.com"),
      ("age", JSON.num 20)]) =
      (⟨201, some ⟨JSNum.fin 4, "", Prim.str "ana@example.com", 20⟩⟩,
        users ++ [⟨JSNum.fin 4, "", Prim.str "ana@example.com", 20⟩]) ∧
    ¬ wellFormed ⟨JSNum.fin 4, "", Prim.str "ana@example.com", 20⟩ ∧
    Users.PUT users (mkObj [("id", JSON.num 1), ("age", JSON.num (61 / 2))]) =
      (⟨200, some ⟨JSNum.fin 1, "Juan Pérez", Prim.str "juan@example.com", 61 / 2⟩⟩,
        [⟨JSNum.fin 1, "Juan Pérez", Prim.str "juan@example.com", 61 / 2⟩,
          ⟨JSNum.fin 2, "María González", Prim.str "maria@example.com", 30⟩,
          ⟨JSNum.fin 3, "Carlos López", Prim.str "carlos@example.com", 22⟩]) ∧
    ¬ wellFormed ⟨JSNum.fin 1, "Juan Pérez", Prim.str "juan@example.com", 61 / 2⟩ ∧
    (Users.PUT users (mkObj [("id", JSON.num 1), ("name", JSON.str "   ")])).1.status = 400 ∧
    (Users.POST users (mkObj [("name", JSON.str "Ana"), ("email", JSON.str "ana@example.com"),
      ("age", JSON.num (61 / 2))])).2.map (fun u => u.age) = [25, 30, 22, 30] := by
  decide!

/-- C17 (the code at the failing inputs): the two routes hold two arrays.  In the initial
state product list returns the product 4, and get by id answers `"4"` with 404.  A product
created by product create gets the id 9 and is in the array of the collection route, and
get by id and delete by id answer `"9"` with 404. -/
theorem by_id_route_has_its_own_array :
    (⟨JSNum.fin 4, "Monitor", 300⟩ : Product) ∈
      Products.listed codePointCompare ProductStore.init.products noQuery ∧
    ProductsById.GET ProductStore.init.productsById "4" = Response.fail 404 ∧
    (Products.POST ProductStore.init.products tabletBody).1 =
      ⟨201, some ⟨JSNum.fin 9, "Tablet", 99⟩⟩ ∧
    (⟨JSNum.fin 9, "Tablet", 99⟩ : Product) ∈
      Products.listed codePointCompare
        (runStore ProductStore.init [ProductRequest.post tabletBody]).products noQuery ∧
    ProductsById.GET
      (runStore ProductStore.init [ProductRequest.post tabletBody]).productsById "9" =
      Response.fail 404 ∧
    (ProductsById.DELETE
      (runStore ProductStore.init [ProductRequest.post tabletBody]).productsById "9").1 =
      Response.fail 404 := by
  decide!

theorem dropWhile_rdropWhile_self {α : Type} (p : α → Bool) (l : List α) :
    ((l.dropWhile p).rdropWhile p).dropWhile p = (l.dropWhile p).rdropWhile p := by
  cases hd : l.dropWhile p with
  | nil => simp
  | cons a t =>
    have ha : p a = false := by
      have := List.head_dropWhile_not p l (by rw [hd]; simp)
      simpa [hd] using this
    have hpre : ((a :: t).rdropWhile p) <+: (a :: t) := List.rdropWhile_prefix p _
    cases hr : (a :: t).rdropWhile p with
    | nil => simp
    | cons b u =>
      rw [hr] at hpre
      obtain ⟨w, hw⟩ := hpre
      injection hw with hb _
      subst hb
      simp [List.dropWhile_cons, ha]

theorem trim_trim (s : String) : trim (trim s) = trim s := by
  unfold trim
  simp only [dropWhile_rdropWhile_self, List.rdropWhile_idempotent]

theorem namesUnique_POST (lower : String → String) (ps : List Product) (body : JSON)
    (hcomm : ∀ s, trim (lower s) = lower (trim s)) (h : namesUnique lower ps) :
    namesUnique lower (Products.POSTWith lower ps body).2 := by
  rcases products_POSTWith_cases lower ps body with
    ⟨st, -, -, heq⟩ | ⟨n, p, -, -, -, -, hdup, heq⟩
  · rw [heq]; exact h
  · rw [heq]
    obtain ⟨htrim, hpw⟩ := h
    refine ⟨?_, ?_⟩
    · intro x hx
      rcases List.mem_append.mp hx with hx | hx
      · exact htrim x hx
      · rw [List.mem_singleton.mp hx]
        exact trim_trim n
    · rw [List.pairwise_append]
      refine ⟨hpw, List.pairwise_singleton _ _, ?_⟩
      intro x hx y hy
      rw [List.mem_singleton.mp hy]
      have := hdup x hx
      rw [hcomm] at this
      exact this

/-- C13: if the stored product names are trimmed and pairwise distinct ignoring letter
case, they still are after any sequence of product create requests, whatever the bodies
and whether the requests succeed or not.  The method `toLowerCase` of the host is the
parameter `lower`, and two names are equal ignoring letter case when `lower` gives them
the same form.  What is used of the method is that it commutes with `trim`, as
`toLowerCase` does: white space has no case and only white space is lowercased to white
space. -/
theorem product_names_stay_unique (lower : String → String) (ps : List Product)
    (bodies : List JSON) (hcomm : ∀ s, trim (lower s) = lower (trim s))
    (h : namesUnique lower ps) : namesUnique lower (runProducts lower ps bodies) := by
  induction bodies generalizing ps with
  | nil => exact h
  | cons b bs ih =>
    unfold runProducts
    rw [List.foldl_cons]
    exact ih _ (namesUnique_POST lower ps b hcomm h)

/-- C13 at the initial products, with `toLowerCase` on `A`..`Z`: a create, a create of the
same name in another case with spaces around it, and a create without a price. -/
theorem product_names_stay_unique_witness :
    products ≠ [] ∧ (∀ s, trim (toLowerCase s) = toLowerCase (trim s)) ∧
    namesUnique toLowerCase products ∧
    namesUnique toLowerCase (runProducts toLowerCase products [tabletBody,
      mkObj [("name", JSON.str "  TABLET "), ("price", JSON.num 5)],
      mkObj [("name", JSON.str "Router")]]) ∧
    (runProducts toLowerCase products [tabletBody,
      mkObj [("name", JSON.str "  TABLET "), ("price", JSON.num 5)],
      mkObj [("name", JSON.str "Router")]]).length = 9 :=
  ⟨by decide, trim_toLowerCase, by decide,
    product_names_stay_unique toLowerCase products _ trim_toLowerCase (by decide),
    by decide!⟩

theorem eraseIdx_split {α : Type} : ∀ (xs : List α) (i : Nat) (d : α), xs.get? i = some d →
    ∃ l₁ l₂, xs = l₁ ++ d :: l₂ ∧ xs.eraseIdx i = l₁ ++ l₂ ∧ l₁.length = i
  | [], _, _, h => by simp at h
  | x :: xs, 0, d, h => by
    simp only [List.get?_cons_zero, Option.some.injEq] at h
    subst h
    exact ⟨[], xs, rfl, rfl, rfl⟩
  | x :: xs, i + 1, d, h => by
    simp only [List.get?_cons_succ] at h
    obtain ⟨l₁, l₂, h1, h2, h3⟩ := eraseIdx_split xs i d h
    refine ⟨x :: l₁, l₂, ?_, ?_, ?_⟩
    · rw [h1]; rfl
    · rw [List.eraseIdx_cons_succ, h2]; rfl
    · simp [h3]

theorem findIdx?_exists {α : Type} (xs : List α) (p : α → Bool) (h : ∃ x ∈ xs, p x = true) :
    ∃ i d, xs.findIdx? p = some i ∧ xs.get? i = some d ∧ p d = true := by
  have hsome : (xs.findIdx? p).isSome = true := by
    rw [List.findIdx?_isSome, List.any_eq_true]
    exact h
  obtain ⟨i, hi⟩ := Option.isSome_iff_exists.mp hsome
  have hlt : i < xs.length := by
    obtain ⟨hlt, -⟩ := List.findIdx?_eq_some_iff_getElem.mp hi
    exact hlt
  refine ⟨i, xs[i], hi, ?_, ?_⟩
  · rw [List.get?_eq_getElem?, List.getElem?_eq_getElem hlt]
  · obtain ⟨_, hp, -⟩ := List.findIdx?_eq_some_iff_getElem.mp hi
    exact hp

theorem strictEq_fin_iff (i : JSNum) (q : ℚ) : i.strictEq (JSNum.fin q) = true ↔ i = JSNum.fin q := by
  cases i <;> simp [JSNum.strictEq]

theorem strictEq_comm (a b : JSNum) : a.strictEq b = b.strictEq a := by
  cases a <;> cases b <;>
    first
    | rfl
    | (simp only [JSNum.strictEq]; exact decide_eq_decide.mpr eq_comm)

theorem distinct_ids_unique {α : Type} (f : α → JSNum) (xs : List α)
    (hd : distinctIds (xs.map f)) (a b : α) (ha : a ∈ xs) (hb : b ∈ xs) (q : ℚ)
    (haq : f a = JSNum.fin q) (hbq : f b = JSNum.fin q) : a = b := by
  unfold distinctIds at hd
  rw [List.pairwise_map] at hd
  by_contra hne
  have hsymm : Symmetric (fun x y : α => (f x).strictEq (f y) = false) := by
    intro x y hxy
    rw [strictEq_comm]
    exact hxy
  have := hd.forall hsymm ha hb hne
  rw [haq, hbq] at this
  simp [JSNum.strictEq] at this

theorem products_DELETE_cases (ps : List Product) (id : String) :
    (∃ st, st ≠ 200 ∧ st ≠ 201 ∧ ProductsById.DELETE ps id = (Response.fail st, ps)) ∨
    (∃ i old, ps.findIdx? (fun p => p.id.strictEq (parseIntStr id)) = some i ∧
      ps.get? i = some old ∧
      ProductsById.DELETE ps id =
        (⟨200, some ⟨old, (ps.eraseIdx i).length⟩⟩, ps.eraseIdx i)) := by
  unfold ProductsById.DELETE
  dsimp only
  split
  · left; exact ⟨400, by decide, by decide, rfl⟩
  · split
    · left; exact ⟨404, by decide, by decide, rfl⟩
    · rename_i i hi
      split
      · left; exact ⟨500, by decide, by decide, rfl⟩
      · rename_i old hold
        right
        exact ⟨i, old, hi, hold, rfl⟩

/-- C15 as stated fails: the collection has one user, with the id 0; user delete with
`id: 0` in the body is answered with 400 and removes nothing. -/
theorem users_DELETE_existing_id_zero_is_400 :
    distinctIds ([(⟨JSNum.fin 0, "Eva", Prim.str "eva@example.com", 33⟩ : User)].map
      (fun u => u.id)) ∧
    Users.DELETE [⟨JSNum.fin 0, "Eva", Prim.str "eva@example.com", 33⟩]
      (mkObj [("id", JSON.num 0)]) =
      (Response.fail 400, [⟨JSNum.fin 0, "Eva", Prim.str "eva@example.com", 33⟩]) := by
  decide!

/-- C15, amended: in a collection with pairwise distinct ids, for a record `u` (`p`) whose
id is the integer `n` (`m`): product delete with the decimal text of `m` in the path, and
user delete with `n` in the body when `n` is not 0 and below `10^21` in magnitude, are
answered with 200 and a summary that carries that record and the previous size minus one,
and leave the collection with that record removed and the others in their order. -/
theorem delete_removes_one_record (us : List User) (ps : List Product) (body : JSON)
    (n m : ℤ) (u : User) (p : Product)
    (hus : distinctIds (us.map (fun u => u.id))) (hps : distinctIds (ps.map (fun p => p.id)))
    (hu : u ∈ us) (hun : u.id = JSNum.fin n) (hp : p ∈ ps) (hpm : p.id = JSNum.fin m)
    (hid : body.prop "id" = some (JSON.num n)) (hn0 : n ≠ 0) (hn21 : |n| < 10 ^ 21) :
    (∃ l₁ l₂, us = l₁ ++ u :: l₂ ∧
      Users.DELETE us body = (⟨200, some ⟨u, us.length - 1⟩⟩, l₁ ++ l₂)) ∧
    (∃ l₁ l₂, ps = l₁ ++ p :: l₂ ∧
      ProductsById.DELETE ps (decimalText m) = (⟨200, some ⟨p, ps.length - 1⟩⟩, l₁ ++ l₂)) := by
  constructor
  · obtain ⟨i, d, hi, hd, hpd⟩ := findIdx?_exists us (fun x => x.id.strictEq (JSNum.fin (n : ℚ)))
      ⟨u, hu, (strictEq_fin_iff _ _).mpr hun⟩
    obtain ⟨l₁, l₂, h1, h2, -⟩ := eraseIdx_split us i d hd
    have hdmem : d ∈ us := by rw [h1]; simp
    have hd' : us[i]? = some d := by rw [← List.get?_eq_getElem?]; exact hd
    have hdu : d = u := distinct_ids_unique (fun x : User => x.id) us hus d u
      hdmem hu n ((strictEq_fin_iff _ _).mp hpd) hun
    subst hdu
    refine ⟨l₁, l₂, h1, ?_⟩
    have hq : (n : ℚ) ≠ 0 := by exact_mod_cast hn0
    have hlen : us.length - 1 = (l₁ ++ l₂).length := by
      rw [h1]; simp
    unfold Users.DELETE
    split
    · simp [JSON.prop, JSON.props] at hid
    · simp [hid, truthy?, JSON.truthy, hq, JSON.parseInt, parseIntNum_intCast n hn21, hi, hd',
        h2, hlen]
  · obtain ⟨i, d, hi, hd, hpd⟩ := findIdx?_exists ps (fun x => x.id.strictEq (JSNum.fin (m : ℚ)))
      ⟨p, hp, (strictEq_fin_iff _ _).mpr hpm⟩
    obtain ⟨l₁, l₂, h1, h2, -⟩ := eraseIdx_split ps i d hd
    have hdmem : d ∈ ps := by rw [h1]; simp
    have hd' : ps[i]? = some d := by rw [← List.get?_eq_getElem?]; exact hd
    have hdp : d = p := distinct_ids_unique (fun x : Product => x.id) ps hps d p
      hdmem hp m ((strictEq_fin_iff _ _).mp hpd) hpm
    subst hdp
    refine ⟨l₁, l₂, h1, ?_⟩
    have hlen : ps.length - 1 = (l₁ ++ l₂).length := by
      rw [h1]; simp
    unfold ProductsById.DELETE
    simp [parseIntStr_decimalText, JSNum.isNaN, hi, hd', h2, hlen]

/-- C15, amended, at the initial arrays: user 2 and product 2 are deleted. -/
theorem delete_removes_one_record_witness :
    distinctIds (users.map (fun u => u.id)) ∧
    distinctIds (ProductsById.products.map (fun p => p.id)) ∧
    (⟨JSNum.fin 2, "María González", Prim.str "maria@example.com", 30⟩ : User) ∈ users ∧
    (⟨JSNum.fin 2, "Mouse", 25⟩ : Product) ∈ ProductsById.products ∧
    ((2 : ℤ) ≠ 0 ∧ |(2 : ℤ)| < 10 ^ 21) ∧
    (∃ l₁ l₂, users =
        l₁ ++ ⟨JSNum.fin 2, "María González", Prim.str "maria@example.com", 30⟩ :: l₂ ∧
      Users.DELETE users (mkObj [("id", JSON.num ((2 : ℤ) : ℚ))]) =
        (⟨200, some ⟨⟨JSNum.fin 2, "María González", Prim.str "maria@example.com", 30⟩,
          users.length - 1⟩⟩, l₁ ++ l₂)) ∧
    (∃ l₁ l₂, ProductsById.products = l₁ ++ ⟨JSNum.fin 2, "Mouse", 25⟩ :: l₂ ∧
      ProductsById.DELETE ProductsById.products (decimalText 2) =
        (⟨200, some ⟨⟨JSNum.fin 2, "Mouse", 25⟩, ProductsById.products.length - 1⟩⟩,
          l₁ ++ l₂)) :=
  ⟨by decide!, by decide!, by decide!, by decide!, ⟨by decide, by decide⟩,
    delete_removes_one_record users ProductsById.products
      (mkObj [("id", JSON.num ((2 : ℤ) : ℚ))]) 2 2
      ⟨JSNum.fin 2, "María González", Prim.str "maria@example.com", 30⟩
      ⟨JSNum.fin 2, "Mouse", 25⟩ (by decide!) (by decide!) (by decide!) (by decide!)
      (by decide!) (by decide!) rfl (by decide) (by decide)⟩

/-- C16: every operation that writes is all-or-nothing: when the status of the response
of user create, user update, user delete, product create or product delete by id is
neither 200 nor 201, the collection after the request is the collection before it. -/
theorem failed_request_changes_nothing (us : List User) (qs rs : List Product)
    (b₁ b₂ b₃ b₄ : JSON) (id : String) :
    ((Users.POST us b₁).1.status ≠ 200 → (Users.POST us b₁).1.status ≠ 201 →
      (Users.POST us b₁).2 = us) ∧
    ((Users.PUT us b₂).1.status ≠ 200 → (Users.PUT us b₂).1.status ≠ 201 →
      (Users.PUT us b₂).2 = us) ∧
    ((Users.DELETE us b₃).1.status ≠ 200 → (Users.DELETE us b₃).1.status ≠ 201 →
      (Users.DELETE us b₃).2 = us) ∧
    ((Products.POST qs b₄).1.status ≠ 200 → (Products.POST qs b₄).1.status ≠ 201 →
      (Products.POST qs b₄).2 = qs) ∧
    ((ProductsById.DELETE rs id).1.status ≠ 200 → (ProductsById.DELETE rs id).1.status ≠ 201 →
      (ProductsById.DELETE rs id).2 = rs) := by
  refine ⟨?_, ?_, ?_, ?_, ?_⟩
  · intro h200 h201
    rcases users_POST_cases us b₁ with
      ⟨st, -, -, heq⟩ | ⟨n, e, a, -, -, -, -, -, -, -, -, -, -, heq⟩
    · rw [heq]
    · rw [heq] at h201; exact absurd rfl h201
  · intro h200 h201
    rcases users_PUT_cases us b₂ with
      ⟨st, -, -, heq⟩ | ⟨v, i, old, em, ag, nm, -, -, -, -, -, -, -, -, heq⟩
    · rw [heq]
    · rw [heq] at h200; exact absurd rfl h200
  · intro h200 h201
    rcases users_DELETE_cases us b₃ with ⟨st, -, -, heq⟩ | ⟨v, i, old, -, -, -, -, heq⟩
    · rw [heq]
    · rw [heq] at h200; exact absurd rfl h200
  · intro h200 h201
    rcases products_POST_cases qs b₄ with ⟨st, -, -, heq⟩ | ⟨n, p, -, -, -, -, -, heq⟩
    · rw [heq]
    · rw [heq] at h201; exact absurd rfl h201
  · intro h200 h201
    rcases products_DELETE_cases rs id with ⟨st, -, -, heq⟩ | ⟨i, old, -, -, heq⟩
    · rw [heq]
    · rw [heq] at h200; exact absurd rfl h200

/-- C16 at the initial arrays: a create with a stored email (409), an update of an absent
user (404), a delete without id (400), a create of a stored product name (409) and a
delete by an absent id (404). -/
theorem failed_request_changes_nothing_witness :
    (Users.POST users (mkObj [("name", JSON.str "Ana"), ("email", JSON.str "juan@example.com"),
      ("age", JSON.num 20)])).1.status = 409 ∧
    (Users.POST users (mkObj [("name", JSON.str "Ana"), ("email", JSON.str "juan@example.com"),
      ("age", JSON.num 20)])).2 = users ∧
    (Users.PUT users (mkObj [("id", JSON.num 9), ("age", JSON.num 20)])).1.status = 404 ∧
    (Users.PUT users (mkObj [("id", JSON.num 9), ("age", JSON.num 20)])).2 = users ∧
    (Users.DELETE users (mkObj [])).1.status = 400 ∧
    (Users.DELETE users (mkObj [])).2 = users ∧
    (Products.POST products (mkObj [("name", JSON.str "laptop"),
      ("price", JSON.num 5)])).1.status = 409 ∧
    (Products.POST products (mkObj [("name", JSON.str "laptop"),
      ("price", JSON.num 5)])).2 = products ∧
    (ProductsById.DELETE ProductsById.products "9").1.status = 404 ∧
    (ProductsById.DELETE ProductsById.products "9").2 = ProductsById.products :=
  ⟨by decide!,
    (failed_request_changes_nothing users products ProductsById.products
      (mkObj [("name", JSON.str "Ana"), ("email", JSON.str "juan@example.com"),
        ("age", JSON.num 20)])
      (mkObj [("id", JSON.num 9), ("age", JSON.num 20)]) (mkObj [])
      (mkObj [("name", JSON.str "laptop"), ("price", JSON.num 5)]) "9").1
      (by decide!) (by decide!),
    by decide!,
    (failed_request_changes_nothing users products ProductsById.products
      (mkObj [("name", JSON.str "Ana"), ("email", JSON.str "juan@example.com"),
        ("age", JSON.num 20)])
      (mkObj [("id", JSON.num 9), ("age", JSON.num 20)]) (mkObj [])
      (mkObj [("name", JSON.str "laptop"), ("price", JSON.num 5)]) "9").2.1
      (by decide!) (by decide!),
    by decide!,
    (failed_request_changes_nothing users products ProductsById.products
      (mkObj [("name", JSON.str "Ana"), ("email", JSON.str "juan@example.com"),
        ("age", JSON.num 20)])
      (mkObj [("id", JSON.num 9), ("age", JSON.num 20)]) (mkObj [])
      (mkObj [("name", JSON.str "laptop"), ("price", JSON.num 5)]) "9").2.2.1
      (by decide!) (by decide!),
    by decide!,
    (failed_request_changes_nothing users products ProductsById.products
      (mkObj [("name", JSON.str "Ana"), ("email", JSON.str "juan@example.com"),
        ("age", JSON.num 20)])
      (mkObj [("id", JSON.num 9), ("age", JSON.num 20)]) (mkObj [])
      (mkObj [("name", JSON.str "laptop"), ("price", JSON.num 5)]) "9").2.2.2.1
      (by decide!) (by decide!),
    by decide!,
    (failed_request_changes_nothing users products ProductsById.products
      (mkObj [("name", JSON.str "Ana"), ("email", JSON.str "juan@example.com"),
        ("age", JSON.num 20)])
      (mkObj [("id", JSON.num 9), ("age", JSON.num 20)]) (mkObj [])
      (mkObj [("name", JSON.str "laptop"), ("price", JSON.num 5)]) "9").2.2.2.2
      (by decide!) (by decide!)⟩

theorem orderedInsert_pairwise_on {α : Type} (r : α → α → Prop) [DecidableRel r] (a : α) :
    ∀ l : List α, l.Pairwise r → (∀ x ∈ l, r a x ∨ r x a) →
      (∀ x ∈ l, ∀ y ∈ l, r a x → r x y → r a y) → (l.orderedInsert r a).Pairwise r
  | [], _, _, _ => by simp
  | b :: l, hpw, htot, htr => by
    rw [List.orderedInsert]
    split
    · rename_i hab
      refine List.Pairwise.cons ?_ hpw
      intro x hx
      rcases List.mem_cons.mp hx with rfl | hxl
      · exact hab
      · exact htr b (List.mem_cons_self _ _) x hx hab (List.rel_of_pairwise_cons hpw hxl)
    · rename_i hab
      have hba : r b a := (htot b (List.mem_cons_self _ _)).resolve_left hab
      refine List.Pairwise.cons ?_ ?_
      · intro y hy
        rcases (List.mem_orderedInsert r).mp hy with rfl | hyl
        · exact hba
        · exact List.rel_of_pairwise_cons hpw hyl
      · exact orderedInsert_pairwise_on r a l hpw.of_cons
          (fun x hx => htot x (List.mem_cons_of_mem _ hx))
          (fun x hx y hy => htr x (List.mem_cons_of_mem _ hx) y (List.mem_cons_of_mem _ hy))

theorem insertionSort_pairwise_on {α : Type} (r : α → α → Prop) [DecidableRel r] :
    ∀ xs : List α, (∀ x ∈ xs, ∀ y ∈ xs, r x y ∨ r y x) →
      (∀ x ∈ xs, ∀ y ∈ xs, ∀ z ∈ xs, r x y → r y z → r x z) →
      (xs.insertionSort r).Pairwise r
  | [], _, _ => by simp
  | a :: l, htot, htr => by
    rw [List.insertionSort]
    have hmem : ∀ x, x ∈ l.insertionSort r → x ∈ a :: l := fun x hx =>
      List.mem_cons_of_mem _ ((List.mem_insertionSort r).mp hx)
    refine orderedInsert_pairwise_on r a _ ?_ ?_ ?_
    · exact insertionSort_pairwise_on r l
        (fun x hx y hy => htot x (List.mem_cons_of_mem _ hx) y (List.mem_cons_of_mem _ hy))
        (fun x hx y hy z hz => htr x (List.mem_cons_of_mem _ hx) y (List.mem_cons_of_mem _ hy)
          z (List.mem_cons_of_mem _ hz))
    · intro x hx
      exact htot a (List.mem_cons_self _ _) x (hmem x hx)
    · intro x hx y hy
      exact htr a (List.mem_cons_self _ _) x (hmem x hx) y (hmem y hy)

theorem sort_sorted_on {α : Type} (c : α → α → JSNum) (r : α → α → Prop) (xs : List α)
    (hr : ∀ x ∈ xs, ∀ y ∈ xs, ((JSNum.fin 0).lt (c x y) = false ↔ r x y))
    (htot : ∀ x ∈ xs, ∀ y ∈ xs, r x y ∨ r y x)
    (htr : ∀ x ∈ xs, ∀ y ∈ xs, ∀ z ∈ xs, r x y → r y z → r x z) :
    (sort c xs).Pairwise r := by
  have h := insertionSort_pairwise_on (fun a b => (JSNum.fin 0).lt (c a b) = false) xs
    (fun x hx y hy => by
      rcases htot x hx y hy with h | h
      · exact Or.inl ((hr x hx y hy).mpr h)
      · exact Or.inr ((hr y hy x hx).mpr h))
    (fun x hx y hy z hz hxy hyz =>
      (hr x hx z hz).mpr (htr x hx y hy z hz ((hr x hx y hy).mp hxy) ((hr y hy z hz).mp hyz)))
  have hmem : ∀ x, x ∈ sort c xs → x ∈ xs := fun x hx => (sort_perm c xs).subset hx
  unfold sort at hmem ⊢
  refine List.Pairwise.imp_of_mem ?_ h
  intro a b ha hb hab
  exact (hr a (hmem a ha) b (hmem b hb)).mp hab

theorem le_of_sub_asc (a b : JSNum) (ha : a.isNaN = false) (hb : b.isNaN = false) :
    ((JSNum.fin 0).lt (a.sub b) = false ↔ a.le b = true) := by
  cases a <;> cases b <;>
    simp_all [JSNum.isNaN, JSNum.sub, JSNum.add, JSNum.neg, JSNum.lt, JSNum.le]

theorem le_of_sub_desc (a b : JSNum) (ha : a.isNaN = false) (hb : b.isNaN = false) :
    ((JSNum.fin 0).lt (a.sub b).neg = false ↔ b.le a = true) := by
  cases a <;> cases b <;>
    simp_all [JSNum.isNaN, JSNum.sub, JSNum.add, JSNum.neg, JSNum.lt, JSNum.le]

theorem JSNum_le_total (a b : JSNum) (ha : a.isNaN = false) (hb : b.isNaN = false) :
    a.le b = true ∨ b.le a = true := by
  cases a <;> cases b <;> simp_all [JSNum.isNaN, JSNum.le]
  exact le_total _ _

theorem listed_sort_eq (lc : String → String → ℤ) (ps : List Product)
    (minPrice maxPrice name order : Option String) (k : String) (hk : k ≠ "") :
    Products.listed lc ps ⟨minPrice, maxPrice, name, some k, order⟩ =
      sort (Products.comparator lc k order)
        (Products.filterName name (Products.filterMax maxPrice
          (Products.filterMin minPrice ps))) := by
  simp [Products.listed, Products.GET, Products.sortStep, hk]

/-- C18: for every products collection whose ids are numbers and every choice of filters,
product list with `sortBy=price` or `sortBy=id` returns a permutation of the filtered
records which is non-decreasing in that field when `order` is not `desc`, and
non-increasing when `order=desc`; with a `sortBy` other than `price`, `name` and `id` it
returns the filtered records in their order. -/
theorem list_sorted_by_price_or_id (lc : String → String → ℤ) (ps : List Product)
    (minPrice maxPrice name order : Option String)
    (hid : ∀ p ∈ ps, p.id.isNaN = false) :
    (order ≠ some "desc" →
      (Products.listed lc ps ⟨minPrice, maxPrice, name, some "price", order⟩).Perm
        (Products.filterName name (Products.filterMax maxPrice
          (Products.filterMin minPrice ps))) ∧
      (Products.listed lc ps ⟨minPrice, maxPrice, name, some "price", order⟩).Pairwise
        (fun a b => a.price ≤ b.price) ∧
      (Products.listed lc ps ⟨minPrice, maxPrice, name, some "id", order⟩).Perm
        (Products.filterName name (Products.filterMax maxPrice
          (Products.filterMin minPrice ps))) ∧
      (Products.listed lc ps ⟨minPrice, maxPrice, name, some "id", order⟩).Pairwise
        (fun a b => a.id.le b.id = true)) ∧
    ((Products.listed lc ps ⟨minPrice, maxPrice, name, some "price", some "desc"⟩).Perm
        (Products.filterName name (Products.filterMax maxPrice
          (Products.filterMin minPrice ps))) ∧
      (Products.listed lc ps ⟨minPrice, maxPrice, name, some "price", some "desc"⟩).Pairwise
        (fun a b => b.price ≤ a.price) ∧
      (Products.listed lc ps ⟨minPrice, maxPrice, name, some "id", some "desc"⟩).Perm
        (Products.filterName name (Products.filterMax maxPrice
          (Products.filterMin minPrice ps))) ∧
      (Products.listed lc ps ⟨minPrice, maxPrice, name, some "id", some "desc"⟩).Pairwise
        (fun a b => b.id.le a.id = true)) ∧
    (∀ k, k ≠ "price" → k ≠ "name" → k ≠ "id" →
      Products.listed lc ps ⟨minPrice, maxPrice, name, some k, order⟩ =
        Products.filterName name (Products.filterMax maxPrice
          (Products.filterMin minPrice ps))) := by
  have hsub := filtered_sublist ⟨minPrice, maxPrice, name, none, none⟩ ps
  dsimp only at hsub
  have hF : ∀ p ∈ Products.filterName name (Products.filterMax maxPrice
      (Products.filterMin minPrice ps)), p.id.isNaN = false :=
    fun p hp => hid p (hsub.subset hp)
  refine ⟨?_, ⟨?_, ?_, ?_, ?_⟩, ?_⟩
  · intro hord
    refine ⟨?_, ?_, ?_, ?_⟩
    · rw [listed_sort_eq _ _ _ _ _ _ _ (by decide)]
      exact sort_perm _ _
    · rw [listed_sort_eq _ _ _ _ _ _ _ (by decide)]
      refine sort_sorted_on _ _ _ ?_ (fun x _ y _ => le_total _ _)
        (fun x _ y _ z _ => le_trans)
      intro x _ y _
      simp [Products.comparator, hord, JSNum.lt]
    · rw [listed_sort_eq _ _ _ _ _ _ _ (by decide)]
      exact sort_perm _ _
    · rw [listed_sort_eq _ _ _ _ _ _ _ (by decide)]
      refine sort_sorted_on _ _ _ ?_
        (fun x hx y hy => JSNum_le_total _ _ (hF x hx) (hF y hy))
        (fun x _ y _ z _ => JSNum_le_trans _ _ _)
      intro x hx y hy
      have := le_of_sub_asc x.id y.id (hF x hx) (hF y hy)
      simpa [Products.comparator, hord] using this
  · rw [listed_sort_eq _ _ _ _ _ _ _ (by decide)]
    exact sort_perm _ _
  · rw [listed_sort_eq _ _ _ _ _ _ _ (by decide)]
    refine sort_sorted_on _ _ _ ?_ (fun x _ y _ => le_total _ _)
      (fun x _ y _ z _ hxy hyz => le_trans hyz hxy)
    intro x _ y _
    simp [Products.comparator, JSNum.lt, JSNum.neg]
  · rw [listed_sort_eq _ _ _ _ _ _ _ (by decide)]
    exact sort_perm _ _
  · rw [listed_sort_eq _ _ _ _ _ _ _ (by decide)]
    refine sort_sorted_on _ _ _ ?_
      (fun x hx y hy => JSNum_le_total _ _ (hF y hy) (hF x hx))
      (fun x _ y _ z _ hxy hyz => JSNum_le_trans _ _ _ hyz hxy)
    intro x hx y hy
    have := le_of_sub_desc x.id y.id (hF x hx) (hF y hy)
    simpa [Products.comparator] using this
  · intro k h1 h2 h3
    by_cases hk : k = ""
    · subst hk
      simp [Products.listed, Products.GET, Products.sortStep]
    · rw [listed_sort_eq _ _ _ _ _ _ _ hk]
      unfold sort
      apply List.Sorted.insertionSort_eq
      apply List.pairwise_of_forall
      intro a b
      by_cases hd : order = some "desc"
      · simp [Products.comparator, h1, h2, h3, hd, JSNum.neg, JSNum.lt]
      · simp [Products.comparator, h1, h2, h3, hd, JSNum.lt]

/-- C18 at the initial products with a price of at least 50: ascending by id without
`order`. -/
theorem list_sorted_by_price_or_id_witness :
    (∀ p ∈ products, p.id.isNaN = false) ∧ (none : Option String) ≠ some "desc" ∧
    (Products.listed codePointCompare products ⟨some "50", none, none, some "price", none⟩).Perm
      (Products.filterName none (Products.filterMax none
        (Products.filterMin (some "50") products))) ∧
    (Products.listed codePointCompare products
      ⟨some "50", none, none, some "price", none⟩).Pairwise (fun a b => a.price ≤ b.price) ∧
    (Products.listed codePointCompare products ⟨some "50", none, none, some "id", none⟩).Perm
      (Products.filterName none (Products.filterMax none
        (Products.filterMin (some "50") products))) ∧
    (Products.listed codePointCompare products
      ⟨some "50", none, none, some "id", none⟩).Pairwise (fun a b => a.id.le b.id = true) :=
  ⟨by decide, by decide,
    (list_sorted_by_price_or_id codePointCompare products (some "50") none none none
      (by decide)).1 (by decide)⟩

theorem findIdx?_set_same {α : Type} (p : α → Bool) (x : α) :
    ∀ (xs : List α) (i : Nat) (old : α) (s : Nat), xs.get? i = some old → p x = p old →
      (xs.set i x).findIdx? p s = xs.findIdx? p s
  | [], _, _, _, h, _ => by simp at h
  | y :: ys, 0, old, s, h, hp => by
    simp only [List.get?_cons_zero, Option.some.injEq] at h
    subst h
    simp [List.findIdx?_cons, hp]
  | y :: ys, i + 1, old, s, h, hp => by
    simp only [List.get?_cons_succ] at h
    simp only [List.set_cons_succ, List.findIdx?_cons]
    rw [findIdx?_set_same p x ys i old (s + 1) h hp]

theorem any_set_same {α : Type} (f : α → Bool) (x : α) :
    ∀ (xs : List α) (i : Nat) (old : α), xs.get? i = some old → f x = f old →
      (xs.set i x).any f = xs.any f
  | [], _, _, h, _ => by simp at h
  | y :: ys, 0, old, h, hf => by
    simp only [List.get?_cons_zero, Option.some.injEq] at h
    subst h
    simp [hf]
  | y :: ys, i + 1, old, h, hf => by
    simp only [List.get?_cons_succ] at h
    simp only [List.set_cons_succ, List.any_cons]
    rw [any_set_same f x ys i old h hf]

theorem users_PUT_eq (us : List User) (body v : JSON) (i : Nat) (old : User)
    (email : Option Prim) (age : Option ℚ) (name : Option String)
    (hv : body.prop "id" = some v) (hvt : v.truthy = true)
    (hi : us.findIdx? (fun u => u.id.strictEq v.parseInt) = some i)
    (hold : us.get? i = some old)
    (hkeys : ∀ k ∈ body.restKeys "id", k ∈ Users.allowedFields)
    (he : Users.checkEmail us v.parseInt (body.prop "email") = Except.ok email)
    (ha : Users.checkAge (body.prop "age") = Except.ok age)
    (hn : Users.checkName (body.prop "name") = Except.ok name) :
    Users.PUT us body =
      (⟨200, some ⟨old.id, name.getD old.name, email.getD old.email, age.getD old.age⟩⟩,
        us.set i ⟨old.id, name.getD old.name, email.getD old.email, age.getD old.age⟩) := by
  have hany : (body.restKeys "id").any (fun field => !Users.allowedFields.contains field)
      = false := by
    rw [List.any_eq_false]
    intro k hk
    simpa using hkeys k hk
  unfold Users.PUT
  split
  · simp [JSON.prop, JSON.props] at hv
  · simp only [hv, truthy?, hvt, Option.map_some', Option.getD_some, hi, hany, he, ha, hn,
      hold, Bool.not_true, Bool.false_eq_true, if_false]

theorem checkEmail_set_same (us : List User) (pid : JSNum) (v : Option JSON) (i : Nat)
    (old new : User) (hold : us.get? i = some old) (hid : new.id = old.id)
    (hself : old.id.strictEq pid = true) :
    Users.checkEmail (us.set i new) pid v = Users.checkEmail us pid v := by
  rcases v with _ | (p | xs | kvs)
  · rfl
  · cases p with
    | str e =>
      simp only [Users.checkEmail]
      rw [any_set_same (fun user => decide (user.email = Prim.str e) && !user.id.strictEq pid)
        new us i old hold (by simp [hid, hself])]
    | null => rfl
    | bool b => rfl
    | num q => rfl
  · rfl
  · rfl

/-- C19: user update is idempotent: for every users collection and every body, the update
applied to the collection that the same update left returns the same response and leaves
the same collection. -/
theorem users_PUT_idempotent (us : List User) (body : JSON) :
    Users.PUT (Users.PUT us body).2 body = Users.PUT us body := by
  rcases users_PUT_cases us body with ⟨st, -, -, heq⟩ |
    ⟨v, i, old, email, age, name, hv, hvt, hi, hold, hkeys, he, ha, hn, heq⟩
  · rw [heq]
    exact heq
  · have hself : old.id.strictEq v.parseInt = true :=
      findIdx?_some_get us (fun u => u.id.strictEq v.parseInt) i old hi hold
    have hlt : i < us.length := by
      rw [List.get?_eq_getElem?] at hold
      exact (List.getElem?_eq_some_iff.mp hold).1
    rw [heq]
    dsimp only
    have hget : (us.set i ⟨old.id, name.getD old.name, email.getD old.email,
        age.getD old.age⟩).get? i =
        some ⟨old.id, name.getD old.name, email.getD old.email, age.getD old.age⟩ := by
      simp [List.get?_eq_getElem?, List.getElem?_set, hlt]
    have hi' : (us.set i ⟨old.id, name.getD old.name, email.getD old.email,
        age.getD old.age⟩).findIdx? (fun u => u.id.strictEq v.parseInt) = some i := by
      rw [findIdx?_set_same (fun u : User => u.id.strictEq v.parseInt)
        ⟨old.id, name.getD old.name, email.getD old.email, age.getD old.age⟩ us i old 0 hold rfl]
      exact hi
    have he' := checkEmail_set_same us v.parseInt (body.prop "email") i old
      ⟨old.id, name.getD old.name, email.getD old.email, age.getD old.age⟩ hold rfl hself
    rw [users_PUT_eq _ body v i _ email age name hv hvt hi' hget hkeys (he'.trans he) ha hn]
    have hrec : (⟨old.id, name.getD (name.getD old.name), email.getD (email.getD old.email),
        age.getD (age.getD old.age)⟩ : User) =
        ⟨old.id, name.getD old.name, email.getD old.email, age.getD old.age⟩ := by
      cases name <;> cases email <;> cases age <;> rfl
    simp only [hrec, List.set_set]

/-- C5 as stated fails: the names `Café` written with the letter U+00E9 and with the
letter `e` and the accent U+0301 are two different strings, product create stores both
(ids 9 and 10), and the names of the collection are pairwise distinct; on two such names
`localeCompare` returns 0.  With any comparator that does, product list with the name
filter `caf` and `sortBy=name` returns the products 9 and 10 in this order for both
`order=asc` and `order=desc`: the second list is not the reverse of the first. -/
theorem name_desc_equals_asc_on_equivalent_names :
    runProducts toLowerCase products
        [mkObj [("name", JSON.str "Caf\u00e9"), ("price", JSON.num 3)],
          mkObj [("name", JSON.str "Cafe\u0301"), ("price", JSON.num 4)]] =
      products ++ [cafeComposed, cafeDecomposed] ∧
    (products ++ [cafeComposed, cafeDecomposed]).Pairwise (fun p q => p.name ≠ q.name) ∧
    ∀ lc : String → String → ℤ, lc "Caf\u00e9" "Cafe\u0301" = 0 →
      Products.listed lc (products ++ [cafeComposed, cafeDecomposed])
          ⟨none, none, some "caf", some "name", some "asc"⟩ =
        [cafeComposed, cafeDecomposed] ∧
      Products.listed lc (products ++ [cafeComposed, cafeDecomposed])
          ⟨none, none, some "caf", some "name", some "desc"⟩ =
        [cafeComposed, cafeDecomposed] ∧
      Products.listed lc (products ++ [cafeComposed, cafeDecomposed])
          ⟨none, none, some "caf", some "name", some "desc"⟩ ≠
        (Products.listed lc (products ++ [cafeComposed, cafeDecomposed])
          ⟨none, none, some "caf", some "name", some "asc"⟩).reverse := by
  refine ⟨by decide!, by decide, ?_⟩
  intro lc h0
  have hL : Products.filterName (some "caf") (Products.filterMax none (Products.filterMin none
      (products ++ [cafeComposed, cafeDecomposed]))) = [cafeComposed, cafeDecomposed] := by
    decide!
  have hasc : Products.listed lc (products ++ [cafeComposed, cafeDecomposed])
      ⟨none, none, some "caf", some "name", some "asc"⟩ = [cafeComposed, cafeDecomposed] := by
    rw [listed_sort_eq lc _ none none (some "caf") (some "asc") "name" (by decide), hL]
    simp [sort, List.insertionSort, List.orderedInsert, Products.comparator, h0, JSNum.lt,
      cafeComposed, cafeDecomposed]
  have hdesc : Products.listed lc (products ++ [cafeComposed, cafeDecomposed])
      ⟨none, none, some "caf", some "name", some "desc"⟩ = [cafeComposed, cafeDecomposed] := by
    rw [listed_sort_eq lc _ none none (some "caf") (some "desc") "name" (by decide), hL]
    simp [sort, List.insertionSort, List.orderedInsert, Products.comparator, h0, JSNum.lt,
      JSNum.neg, cafeComposed, cafeDecomposed]
  refine ⟨hasc, hdesc, ?_⟩
  rw [hasc, hdesc]
  decide

end MiApi
